import Mathlib

/-!
Verification of the opencode Session Engine specification against a shallow
embedding of the TypeScript source.

JavaScript strings are modelled as Lean `String`s; `Buffer.byteLength(s, "utf-8")`
is modelled as the sum of UTF-8 sizes of the code points; `split("\n")` and
`join("\n")` are modelled by structurally recursive functions over the character
list so that all definitions evaluate inside the kernel.
-/

/-- Model of `Buffer.byteLength(text, "utf-8")`: total UTF-8 byte size. -/
def byteLen (s : String) : Nat := (s.data.map Char.utf8Size).sum

/-- Model of JavaScript `text.split("\n")` on the character list:
splitting on newline always yields at least one (possibly empty) piece. -/
def splitNlChars : List Char → List (List Char)
  | [] => [[]]
  | c :: rest =>
    let r := splitNlChars rest
    if c = '\n' then [] :: r
    else
      match r with
      | [] => [[c]]
      | l :: ls => (c :: l) :: ls

/-- Model of JavaScript `text.split("\n")`. -/
def jsSplitNl (s : String) : List String := (splitNlChars s.data).map List.asString

/-- Model of JavaScript `lines.join("\n")`. -/
def joinNl : List String → String
  | [] => ""
  | [s] => s
  | s :: rest => s ++ "\n" ++ joinNl rest

/-- Starts-with test on character lists. -/
def startsWith : List Char → List Char → Bool
  | _, [] => true
  | [], _ :: _ => false
  | a :: as, b :: bs => a = b && startsWith as bs

/-- Occurrence test on character lists. -/
def containsSubList : List Char → List Char → Bool
  | hay, needle =>
    if startsWith hay needle then true
    else
      match hay with
      | [] => false
      | _ :: rest => containsSubList rest needle

/-- Substring occurrence test (used to state what an error message mentions). -/
def containsSub (hay needle : String) : Bool := containsSubList hay.data needle.data

namespace Truncate

/-- Source: `truncation.ts` `MAX_LINES = 2000`. -/
def MAX_LINES : Nat := 2000

/-- Source: `truncation.ts` `MAX_BYTES = 50 * 1024`. -/
def MAX_BYTES : Nat := 50 * 1024

/-- Source: `truncation.ts` `Result`. -/
structure Result where
  content : String
  truncated : Bool
  outputPath : Option String
  deriving DecidableEq, Repr

/-- Source: `truncation.ts` `Options` (direction defaults to head). -/
inductive Direction
  | head
  | tail
  deriving DecidableEq, Repr

/-- Source: `truncation.ts` `Options`. -/
structure Options where
  maxLines : Option Nat
  maxBytes : Option Nat
  direction : Option Direction
  deriving DecidableEq, Repr

/-- Default options `{}` as passed by callers that rely on the defaults. -/
def Options.default : Options := ⟨none, none, none⟩

/-- Model of the `Bun.write(Bun.file(filepath), text)` side effect:
the spill file path together with the full text written there. -/
structure Spill where
  path : String
  contents : String
  deriving DecidableEq, Repr

/-- Source: `truncation.ts` per-line size `byteLength(lines[i]) + (i > 0 ? 1 : 0)`
(the second summand accounts for the separating newline). -/
def lineSize (l : String) (i : Nat) : Nat := byteLen l + (if 0 < i then 1 else 0)

/-- Source: `truncation.ts` head-direction collection loop.
Arguments: remaining lines, current index `i`, accumulated `bytes`,
`maxLines`, `maxBytes`.  Returns the collected lines `out`, the final
`bytes` counter and the `hitBytes` flag. -/
def headLoop : List String → Nat → Nat → Nat → Nat → (List String × Nat × Bool)
  | [], _, bytes, _, _ => ([], bytes, false)
  | l :: rest, i, bytes, maxLines, maxBytes =>
    if i < maxLines then
      if maxBytes < bytes + lineSize l i then ([], bytes, true)
      else
        (l :: (headLoop rest (i + 1) (bytes + lineSize l i) maxLines maxBytes).1,
          (headLoop rest (i + 1) (bytes + lineSize l i) maxLines maxBytes).2)
    else ([], bytes, false)

/-- Source: `truncation.ts` tail-direction collection loop, walking the
reversed line list (the source walks `i` downwards and `unshift`s; collecting
over the reversed list and reversing the accumulator at the end is the same
walk).  Arguments: remaining reversed lines, current `out.length`, accumulated
`bytes`, `maxLines`, `maxBytes`. -/
def tailLoop : List String → Nat → Nat → Nat → Nat → (List String × Nat × Bool)
  | [], _, bytes, _, _ => ([], bytes, false)
  | l :: rest, outLen, bytes, maxLines, maxBytes =>
    if outLen < maxLines then
      if maxBytes < bytes + lineSize l outLen then ([], bytes, true)
      else
        (l :: (tailLoop rest (outLen + 1) (bytes + lineSize l outLen) maxLines maxBytes).1,
          (tailLoop rest (outLen + 1) (bytes + lineSize l outLen) maxLines maxBytes).2)
    else ([], bytes, false)

/-- Source: `truncation.ts` hint construction (`base`/`hint`); `hasTask`
models `hasTaskTool(agent)`. -/
def hintFor (hasTask : Bool) (filepath : String) : String :=
  let base := "Full output written to: " ++ filepath ++
    "\nUse Grep to search the full content and Read with offset/limit to read specific sections"
  if hasTask then base ++ " (or use Task tool to delegate and save context)." else base ++ "."

/-- Source: `truncation.ts` `Truncate.output`.  `dataDir` models
`Global.Path.data`, `id` the freshly minted tool-output identifier, and
`hasTask` the `hasTaskTool(agent)` test.  The returned `Spill` models the
`Bun.write` of the full text to the spill file. -/
def output (hasTask : Bool) (dataDir id : String) (text : String) (options : Options) :
    Result × Option Spill :=
  let maxLines := options.maxLines.getD MAX_LINES
  let maxBytes := options.maxBytes.getD MAX_BYTES
  let direction := options.direction.getD .head
  let lines := jsSplitNl text
  let totalBytes := byteLen text
  if lines.length ≤ maxLines ∧ totalBytes ≤ maxBytes then
    (⟨text, false, none⟩, none)
  else
    let step :=
      match direction with
      | .head => headLoop lines 0 0 maxLines maxBytes
      | .tail =>
        let r := tailLoop lines.reverse 0 0 maxLines maxBytes
        (r.1.reverse, r.2)
    let out := step.1
    let bytes := step.2.1
    let hitBytes := step.2.2
    let removed : Int :=
      if hitBytes then (totalBytes : Int) - (bytes : Int)
      else (lines.length : Int) - (out.length : Int)
    let unit := if hitBytes then "chars" else "lines"
    let preview := joinNl out
    let filepath := dataDir ++ "/tool-output/" ++ id
    let hint := hintFor hasTask filepath
    let message :=
      match direction with
      | .head => preview ++ "\n\n..." ++ toString removed ++ " " ++ unit ++ " truncated...\n\n" ++ hint
      | .tail => "..." ++ toString removed ++ " " ++ unit ++ " truncated...\n\n" ++ hint ++ "\n\n" ++ preview
    (⟨message, true, some filepath⟩, some ⟨filepath, text⟩)

theorem headLoop_length_le (maxLines maxBytes : Nat) :
    ∀ (lines : List String) (i bytes : Nat),
      (headLoop lines i bytes maxLines maxBytes).1.length + i ≤ maxLines ∨
      (headLoop lines i bytes maxLines maxBytes).1 = [] := by
  intro lines
  induction lines with
  | nil => intro i bytes; right; rfl
  | cons l rest ih =>
    intro i bytes
    rw [headLoop]
    split_ifs with hi hb
    · right; rfl
    · rcases ih (i + 1) (bytes + lineSize l i) with h | h
      · left; simp only [List.length_cons]; omega
      · left; simp only [h, List.length_cons, List.length_nil]; omega
    · right; rfl

theorem headLoop_bytes_le (maxLines maxBytes : Nat) :
    ∀ (lines : List String) (i bytes : Nat), bytes ≤ maxBytes →
      (headLoop lines i bytes maxLines maxBytes).2.1 ≤ maxBytes := by
  intro lines
  induction lines with
  | nil => intro i bytes h; exact h
  | cons l rest ih =>
    intro i bytes h
    rw [headLoop]
    split_ifs with hi hb
    · exact h
    · exact ih (i + 1) _ (Nat.le_of_not_lt hb)
    · exact h

theorem byteLen_append (a b : String) : byteLen (a ++ b) = byteLen a + byteLen b := by
  simp [byteLen, String.data_append]

theorem headLoop_bytes_eq (maxLines maxBytes : Nat) :
    ∀ (lines : List String) (i bytes : Nat),
      (headLoop lines i bytes maxLines maxBytes).2.1 =
        bytes + byteLen (joinNl (headLoop lines i bytes maxLines maxBytes).1) +
          (if 0 < i ∧ (headLoop lines i bytes maxLines maxBytes).1 ≠ [] then 1 else 0) := by
  intro lines
  induction lines with
  | nil =>
    intro i bytes
    have h1 : (headLoop [] i bytes maxLines maxBytes) = ([], bytes, false) := rfl
    rw [h1]
    simp [joinNl, byteLen]
  | cons l rest ih =>
    intro i bytes
    by_cases hi : i < maxLines
    · by_cases hb : maxBytes < bytes + lineSize l i
      · have h1 : headLoop (l :: rest) i bytes maxLines maxBytes = ([], bytes, true) := by
          rw [headLoop, if_pos hi, if_pos hb]
        rw [h1]
        simp [joinNl, byteLen]
      · have h1 : headLoop (l :: rest) i bytes maxLines maxBytes =
            (l :: (headLoop rest (i + 1) (bytes + lineSize l i) maxLines maxBytes).1,
              (headLoop rest (i + 1) (bytes + lineSize l i) maxLines maxBytes).2) := by
          rw [headLoop, if_pos hi, if_neg hb]
        rw [h1]
        have h := ih (i + 1) (bytes + lineSize l i)
        rcases he : (headLoop rest (i + 1) (bytes + lineSize l i) maxLines maxBytes).1 with _ | ⟨x, xs⟩
        · rw [he] at h
          show (headLoop rest (i + 1) (bytes + lineSize l i) maxLines maxBytes).2.1 =
            bytes + byteLen (joinNl [l]) +
              if 0 < i ∧ ([l] : List String) ≠ [] then 1 else 0
          rw [h]
          simp only [joinNl]
          have hb0 : byteLen "" = 0 := rfl
          rw [hb0]
          simp only [ne_eq, not_true_eq_false, and_false, if_false, List.cons_ne_nil,
            not_false_eq_true, and_true, lineSize]
          split_ifs with h1' <;> omega
        · rw [he] at h
          show (headLoop rest (i + 1) (bytes + lineSize l i) maxLines maxBytes).2.1 =
            bytes + byteLen (joinNl (l :: x :: xs)) +
              if 0 < i ∧ (l :: x :: xs : List String) ≠ [] then 1 else 0
          rw [h]
          have hjoin : joinNl (l :: x :: xs) = l ++ "\n" ++ joinNl (x :: xs) := rfl
          rw [hjoin, byteLen_append, byteLen_append]
          have hnl : byteLen "\n" = 1 := rfl
          rw [hnl]
          simp only [List.cons_ne_nil, ne_eq, not_false_eq_true, and_true, lineSize,
            Nat.zero_lt_succ, true_and]
          split_ifs with h1' <;> omega
    · have h1 : headLoop (l :: rest) i bytes maxLines maxBytes = ([], bytes, false) := by
        rw [headLoop, if_neg hi]
      rw [h1]
      simp [joinNl, byteLen]

theorem splitNlChars_replicate (n : Nat) :
    splitNlChars (List.replicate n '\n') = List.replicate (n + 1) [] := by
  induction n with
  | zero => rfl
  | succ n ih => simp [List.replicate_succ, splitNlChars, ih]

/-- C6: an output within both the line limit and the byte limit is returned
unchanged, not truncated, with no spill file. -/
theorem output_within_limits (hasTask : Bool) (dataDir id text : String)
    (hlines : (jsSplitNl text).length ≤ MAX_LINES)
    (hbytes : byteLen text ≤ MAX_BYTES) :
    output hasTask dataDir id text Options.default = (⟨text, false, none⟩, none) := by
  unfold output
  simp only [Options.default, Option.getD]
  rw [if_pos ⟨hlines, hbytes⟩]

/-- Witness for `output_within_limits` at a concrete small output. -/
theorem output_within_limits_witness :
    output false "/data" "tool_1" "hello\nworld" Options.default =
      (⟨"hello\nworld", false, none⟩, none) :=
  output_within_limits false "/data" "tool_1" "hello\nworld" (by decide) (by decide)

/-- C7: an output exceeding the line limit or the byte limit is truncated:
the result is a preview of at most `MAX_LINES` lines and `MAX_BYTES` preview
bytes, followed by a `...N lines/chars truncated...` marker and the hint, the
spill path `<data>/tool-output/<id>` is returned, and the full original text
is written there unchanged. -/
theorem output_exceeding_limits (hasTask : Bool) (dataDir id text : String)
    (hex : ¬((jsSplitNl text).length ≤ MAX_LINES ∧ byteLen text ≤ MAX_BYTES)) :
    ∃ (out : List String) (removed : Int) (unit : String),
      output hasTask dataDir id text Options.default =
        (⟨joinNl out ++ "\n\n..." ++ toString removed ++ " " ++ unit ++ " truncated...\n\n" ++
            hintFor hasTask (dataDir ++ "/tool-output/" ++ id),
          true, some (dataDir ++ "/tool-output/" ++ id)⟩,
          some ⟨dataDir ++ "/tool-output/" ++ id, text⟩) ∧
      (unit = "lines" ∨ unit = "chars") ∧
      out.length ≤ MAX_LINES ∧ byteLen (joinNl out) ≤ MAX_BYTES := by
  refine ⟨(headLoop (jsSplitNl text) 0 0 MAX_LINES MAX_BYTES).1,
    (if (headLoop (jsSplitNl text) 0 0 MAX_LINES MAX_BYTES).2.2 then
      (byteLen text : Int) - ((headLoop (jsSplitNl text) 0 0 MAX_LINES MAX_BYTES).2.1 : Int)
    else ((jsSplitNl text).length : Int) -
      ((headLoop (jsSplitNl text) 0 0 MAX_LINES MAX_BYTES).1.length : Int)),
    (if (headLoop (jsSplitNl text) 0 0 MAX_LINES MAX_BYTES).2.2 then "chars" else "lines"),
    ?heq, ?hunit, ?hlen, ?hbytes⟩
  case heq =>
    unfold output
    simp only [Options.default, Option.getD_none]
    rw [if_neg hex]
  case hunit =>
    by_cases h : (headLoop (jsSplitNl text) 0 0 MAX_LINES MAX_BYTES).2.2 <;> simp [h]
  case hlen =>
    rcases headLoop_length_le MAX_LINES MAX_BYTES (jsSplitNl text) 0 0 with h | h
    · omega
    · rw [h]; exact Nat.zero_le _
  case hbytes =>
    have h1 := headLoop_bytes_eq MAX_LINES MAX_BYTES (jsSplitNl text) 0 0
    have h2 := headLoop_bytes_le MAX_LINES MAX_BYTES (jsSplitNl text) 0 0 (Nat.zero_le _)
    simp only [Nat.lt_irrefl, false_and, if_false, Nat.zero_add] at h1
    omega

/-- Witness for `output_exceeding_limits` at a 2002-line output. -/
theorem output_exceeding_limits_witness :
    ∃ (out : List String) (removed : Int) (unit : String),
      output false "/data" "tool_2" (String.mk (List.replicate 2001 '\n')) Options.default =
        (⟨joinNl out ++ "\n\n..." ++ toString removed ++ " " ++ unit ++ " truncated...\n\n" ++
            hintFor false ("/data" ++ "/tool-output/" ++ "tool_2"),
          true, some ("/data" ++ "/tool-output/" ++ "tool_2")⟩,
          some ⟨"/data" ++ "/tool-output/" ++ "tool_2", String.mk (List.replicate 2001 '\n')⟩) ∧
      (unit = "lines" ∨ unit = "chars") ∧
      out.length ≤ MAX_LINES ∧ byteLen (joinNl out) ≤ MAX_BYTES :=
  output_exceeding_limits false "/data" "tool_2" (String.mk (List.replicate 2001 '\n'))
    (by
      intro hcontra
      have h : (jsSplitNl (String.mk (List.replicate 2001 '\n'))).length = 2002 := by
        unfold jsSplitNl
        rw [show (String.mk (List.replicate 2001 '\n')).data = List.replicate 2001 '\n' from rfl]
        rw [splitNlChars_replicate, List.length_map, List.length_replicate]
      have hM : MAX_LINES = 2000 := rfl
      have h1 := hcontra.1
      omega)

end Truncate

namespace SessionCompaction

/-- Source: `MessageV2.Assistant["tokens"]` cache component. -/
structure TokensCache where
  read : Int
  write : Int
  deriving DecidableEq, Repr

/-- Source: `MessageV2.Assistant["tokens"]`. -/
structure Tokens where
  input : Int
  output : Int
  reasoning : Int
  cache : TokensCache
  deriving DecidableEq, Repr

/-- Source: `ModelsDev.Model["limit"]`: context window and output-token limit. -/
structure ModelLimit where
  context : Int
  output : Int
  deriving DecidableEq, Repr

/-- Source: `ModelsDev.Model`, restricted to the fields `isOverflow` reads. -/
structure Model where
  limit : ModelLimit
  deriving DecidableEq, Repr

/-- Source: `compaction.ts` `SessionCompaction.isOverflow`.
`disableAutocompact` models `Flag.OPENCODE_DISABLE_AUTOCOMPACT` and
`outputTokenMax` models `SessionPrompt.OUTPUT_TOKEN_MAX` (the hard cap on
output tokens; its defining module is outside the embedded sources, so it is
kept as a parameter).  The `if outMin = 0` branch models the JavaScript
falsy fallback `Math.min(...) || OUTPUT_TOKEN_MAX`. -/
def isOverflow (disableAutocompact : Bool) (outputTokenMax : Int)
    (tokens : Tokens) (model : Model) : Bool :=
  if disableAutocompact then false
  else if model.limit.context = 0 then false
  else
    let count := tokens.input + tokens.cache.read + tokens.output
    let outMin := min model.limit.output outputTokenMax
    let output := if outMin = 0 then outputTokenMax else outMin
    let usable := model.limit.context - output
    decide (usable < count)

/-- Counterexample to C1: with autocompact enabled, a non-zero context limit
of 33000, a model output limit of 1000 and a hard cap of 32000, an
accumulated count of exactly `contextLimit − min(modelOutputLimit, hard cap) = 32000`
does NOT trigger compaction: `isOverflow` returns `false` at the boundary. -/
theorem isOverflow_boundary_counterexample :
    (false : Bool) = false ∧
    (⟨⟨33000, 1000⟩⟩ : Model).limit.context ≠ 0 ∧
    (⟨32000, 0, 0, ⟨0, 0⟩⟩ : Tokens).input + (⟨32000, 0, 0, ⟨0, 0⟩⟩ : Tokens).cache.read +
        (⟨32000, 0, 0, ⟨0, 0⟩⟩ : Tokens).output =
      (⟨⟨33000, 1000⟩⟩ : Model).limit.context - min (⟨⟨33000, 1000⟩⟩ : Model).limit.output 32000 ∧
    isOverflow false 32000 ⟨32000, 0, 0, ⟨0, 0⟩⟩ ⟨⟨33000, 1000⟩⟩ = false := by
  refine ⟨rfl, by decide, by decide, ?_⟩
  decide

/-- Amended C1: with autocompact enabled, a non-zero context limit and a
non-zero effective output reservation `min(modelOutputLimit, hard cap)`,
`isOverflow` returns `false` when the accumulated count equals exactly
`contextLimit − min(modelOutputLimit, hard cap)`, and it returns `true`
exactly when the count strictly exceeds that boundary. -/
theorem isOverflow_strictly_above_boundary (outputTokenMax : Int)
    (tokens : Tokens) (model : Model)
    (hctx : model.limit.context ≠ 0)
    (hmin : min model.limit.output outputTokenMax ≠ 0) :
    (tokens.input + tokens.cache.read + tokens.output =
        model.limit.context - min model.limit.output outputTokenMax →
      isOverflow false outputTokenMax tokens model = false) ∧
    (isOverflow false outputTokenMax tokens model = true ↔
      model.limit.context - min model.limit.output outputTokenMax <
        tokens.input + tokens.cache.read + tokens.output) := by
  constructor
  · intro heq
    unfold isOverflow
    rw [if_neg (by simp), if_neg hctx]
    simp only [hmin, if_neg hmin, heq]
    simp
  · unfold isOverflow
    rw [if_neg (by simp), if_neg hctx]
    simp only [if_neg hmin]
    simp

/-- Witness for `isOverflow_strictly_above_boundary`: at one token above the
boundary (count = 32001, boundary = 32000) compaction is triggered. -/
theorem isOverflow_strictly_above_boundary_witness :
    (⟨⟨33000, 1000⟩⟩ : Model).limit.context ≠ 0 ∧
    min (⟨⟨33000, 1000⟩⟩ : Model).limit.output 32000 ≠ 0 ∧
    (isOverflow false 32000 ⟨32001, 0, 0, ⟨0, 0⟩⟩ ⟨⟨33000, 1000⟩⟩ = true ↔
      (⟨⟨33000, 1000⟩⟩ : Model).limit.context - min (⟨⟨33000, 1000⟩⟩ : Model).limit.output 32000 <
        (⟨32001, 0, 0, ⟨0, 0⟩⟩ : Tokens).input + (⟨32001, 0, 0, ⟨0, 0⟩⟩ : Tokens).cache.read +
          (⟨32001, 0, 0, ⟨0, 0⟩⟩ : Tokens).output) :=
  ⟨by decide, by decide,
    (isOverflow_strictly_above_boundary 32000 ⟨32001, 0, 0, ⟨0, 0⟩⟩ ⟨⟨33000, 1000⟩⟩
      (by decide) (by decide)).2⟩

end SessionCompaction

/-- Join a list of strings with a separator (JavaScript `Array.join(sep)`). -/
def joinSep (sep : String) : List String → String
  | [] => ""
  | [s] => s
  | s :: rest => s ++ sep ++ joinSep sep rest

namespace BatchTool

/-- Source: `batch.ts` `DISALLOWED = new Set(["batch", "edit", "todoread"])`. -/
def DISALLOWED : List String := ["batch", "edit", "todoread"]

/-- Source: `batch.ts` `FILTERED_FROM_SUGGESTIONS = new Set(["invalid", "patch", ...DISALLOWED])`. -/
def FILTERED_FROM_SUGGESTIONS : List String := ["invalid", "patch", "batch", "edit", "todoread"]

/-- Source: `batch.ts` one element of `tool_calls` (`parameters` kept abstract). -/
structure Call where
  tool : String
  parameters : String
  deriving DecidableEq, Repr

/-- Source: the `{title, output, ...}` record a tool's `execute` returns. -/
structure ToolResult where
  title : String
  output : String
  deriving DecidableEq, Repr

/-- Source: the tool part state machine (`pending → completed | error`). -/
inductive ToolPartState
  | pending (input : String)
  | completed (input output title : String)
  | error (input errorMsg : String)
  deriving DecidableEq, Repr

/-- Modelled from the spec: one zod validation issue (`path`, `message`). -/
structure Issue where
  path : List String
  message : String
  deriving DecidableEq, Repr

/-- Modelled from the spec: the zod `.min(1, "Provide at least one tool call")`
/`.max(10, "Too many tools in batch. Maximum allowed is 10.")` checks on the
`tool_calls` array (the zod library is outside the repository; an array of
length `n` fails the min check when `n < 1` and the max check when `n > 10`,
producing the attached custom message at path `tool_calls`). -/
def toolCallsIssues (n : Nat) : List Issue :=
  (if n < 1 then [⟨["tool_calls"], "Provide at least one tool call"⟩] else []) ++
  (if 10 < n then [⟨["tool_calls"], "Too many tools in batch. Maximum allowed is 10."⟩] else [])

/-- Source: `batch.ts` `formatValidationError` issue line. -/
def formatIssueLine (i : Issue) : String :=
  "  - " ++ (if i.path.isEmpty then "root" else joinSep "." i.path) ++ ": " ++ i.message

/-- Source: `batch.ts` `formatValidationError`. -/
def formatValidationError (issues : List Issue) : String :=
  "Invalid parameters for tool 'batch':\n" ++ joinNl (issues.map formatIssueLine) ++
    "\n\nExpected payload format:\n  [\x7b\"tool\": \"tool_name\", \"parameters\": \x7b...\x7d\x7d, \x7b...\x7d]"

/-- Parameter validation for the batch tool: zod issues on `tool_calls`
rendered through `formatValidationError`; no issues means the call proceeds. -/
def validateToolCalls (calls : List Call) : Except String (List Call) :=
  match toolCallsIssues calls.length with
  | [] => .ok calls
  | issues => .error (formatValidationError issues)

/-- Source: `batch.ts` `executeCall` up to the part bookkeeping: disallowed
check, registry lookup, parameter parse + execute (both folded into the
registry entry's function, which may fail like a thrown exception). -/
def execCore (registry : List (String × (String → Except String ToolResult))) (call : Call) :
    Except String ToolResult :=
  if DISALLOWED.contains call.tool then
    .error ("Tool '" ++ call.tool ++ "' is not allowed in batch. Disallowed tools: " ++
      joinSep ", " DISALLOWED)
  else
    match List.lookup call.tool registry with
    | none =>
      .error ("Tool '" ++ call.tool ++ "' not found. Available tools: " ++
        joinSep ", " (((registry.map Prod.fst).filter
          (fun n => !FILTERED_FROM_SUGGESTIONS.contains n))))
    | some f => f call.parameters

/-- Source: `batch.ts` `executeCall`: final tool part state, success flag and
the `<tool_result>` chunk contributed to the batch reply. -/
def executeCall (registry : List (String × (String → Except String ToolResult))) (call : Call) :
    ToolPartState × Bool × String :=
  match execCore registry call with
  | .ok r =>
    (.completed call.parameters r.output r.title, true,
      "<tool_result name=\"" ++ call.tool ++ "\">\n" ++ r.output ++ "\n</tool_result>")
  | .error e =>
    (.error call.parameters e, false,
      "<tool_result name=\"" ++ call.tool ++ "\">\nError: " ++ e ++ "\n</tool_result>")

/-- Source: `batch.ts` overall batch reply. -/
structure BatchOutput where
  title : String
  output : String
  parts : List ToolPartState
  successful : Nat
  failed : Nat
  deriving DecidableEq, Repr

/-- Source: `batch.ts` `execute`: run every call, count successes, build the
reply (`Promise.all` preserves list order; each call only touches its own
tool part, so the concurrent execution is modelled by the ordered map). -/
def run (registry : List (String × (String → Except String ToolResult))) (calls : List Call) :
    BatchOutput :=
  let results := calls.map (executeCall registry)
  let successfulCalls := results.countP (fun r => r.2.1)
  let failedCalls := calls.length - successfulCalls
  let outputParts := results.map (fun r => r.2.2)
  let outputMessage :=
    if 0 < failedCalls then
      "Executed " ++ toString successfulCalls ++ "/" ++ toString calls.length ++
        " tools successfully. " ++ toString failedCalls ++ " failed.\n\n" ++
        joinSep "\n\n" outputParts
    else
      "All " ++ toString successfulCalls ++ " tools executed successfully.\n\n" ++
        joinSep "\n\n" outputParts ++
        "\n\nKeep using the batch tool for optimal performance in your next response!"
  { title := "Batch execution (" ++ toString successfulCalls ++ "/" ++ toString calls.length ++
      " successful)",
    output := outputMessage,
    parts := results.map (fun r => r.1),
    successful := successfulCalls,
    failed := failedCalls }

/-- A call that the registry executes successfully (not disallowed, found,
and its execution returns a result). -/
def goodCall (registry : List (String × (String → Except String ToolResult))) (c : Call) : Prop :=
  ∃ r : ToolResult, execCore registry c = .ok r

end BatchTool
namespace BatchTool

/-- Counterexample to C2: for the empty `tool_calls` array the validation
error message does not mention the maximum limit (the digits `10` appear
nowhere in it) — only the minimum-limit message is produced. -/
theorem batch_empty_counterexample :
    validateToolCalls [] = .error
      "Invalid parameters for tool 'batch':\n  - tool_calls: Provide at least one tool call\n\nExpected payload format:\n  [\x7b\"tool\": \"tool_name\", \"parameters\": \x7b...\x7d\x7d, \x7b...\x7d]" ∧
    containsSub
      "Invalid parameters for tool 'batch':\n  - tool_calls: Provide at least one tool call\n\nExpected payload format:\n  [\x7b\"tool\": \"tool_name\", \"parameters\": \x7b...\x7d\x7d, \x7b...\x7d]"
      "10" = false :=
  ⟨rfl, by decide⟩

/-- Amended C2: an empty batch is rejected with a validation error whose
message carries the minimum-limit message (`Provide at least one tool call`)
but does not mention the maximum limit; the maximum-limit message appears
only when the batch exceeds 10 calls. -/
theorem batch_empty_min_only :
    validateToolCalls [] = .error
      "Invalid parameters for tool 'batch':\n  - tool_calls: Provide at least one tool call\n\nExpected payload format:\n  [\x7b\"tool\": \"tool_name\", \"parameters\": \x7b...\x7d\x7d, \x7b...\x7d]" ∧
    containsSub
      "Invalid parameters for tool 'batch':\n  - tool_calls: Provide at least one tool call\n\nExpected payload format:\n  [\x7b\"tool\": \"tool_name\", \"parameters\": \x7b...\x7d\x7d, \x7b...\x7d]"
      "Provide at least one tool call" = true ∧
    containsSub
      "Invalid parameters for tool 'batch':\n  - tool_calls: Provide at least one tool call\n\nExpected payload format:\n  [\x7b\"tool\": \"tool_name\", \"parameters\": \x7b...\x7d\x7d, \x7b...\x7d]"
      "10" = false ∧
    validateToolCalls (List.replicate 11 ⟨"read", "x"⟩) = .error
      "Invalid parameters for tool 'batch':\n  - tool_calls: Too many tools in batch. Maximum allowed is 10.\n\nExpected payload format:\n  [\x7b\"tool\": \"tool_name\", \"parameters\": \x7b...\x7d\x7d, \x7b...\x7d]" ∧
    containsSub
      "Invalid parameters for tool 'batch':\n  - tool_calls: Too many tools in batch. Maximum allowed is 10.\n\nExpected payload format:\n  [\x7b\"tool\": \"tool_name\", \"parameters\": \x7b...\x7d\x7d, \x7b...\x7d]"
      "Too many tools in batch. Maximum allowed is 10." = true :=
  ⟨rfl, by decide, by decide, rfl, by decide⟩

end BatchTool

namespace BatchTool

/-- C9: in a batch where exactly one call names a disallowed tool and every
other call executes successfully through the registry, the disallowed call's
tool part ends in state `error`, the other calls' parts are `completed`
unaffected, and the reply title reports `(N-1)/N successful`. -/
theorem batch_single_disallowed (registry : List (String × (String → Except String ToolResult)))
    (pre post : List Call) (bad : Call)
    (hbad : DISALLOWED.contains bad.tool = true)
    (hgood : ∀ c ∈ pre ++ post, goodCall registry c) :
    (run registry (pre ++ bad :: post)).parts =
      pre.map (fun c => (executeCall registry c).1) ++
        ToolPartState.error bad.parameters
          ("Tool '" ++ bad.tool ++ "' is not allowed in batch. Disallowed tools: " ++
            joinSep ", " DISALLOWED) ::
        post.map (fun c => (executeCall registry c).1) ∧
    (∀ c ∈ pre ++ post, ∃ r : ToolResult,
      (executeCall registry c).1 = ToolPartState.completed c.parameters r.output r.title) ∧
    (run registry (pre ++ bad :: post)).successful = pre.length + post.length ∧
    (run registry (pre ++ bad :: post)).failed = 1 ∧
    (run registry (pre ++ bad :: post)).title =
      "Batch execution (" ++ toString (pre.length + post.length) ++ "/" ++
        toString (pre.length + post.length + 1) ++ " successful)" := by
  have hjoin : joinSep ", " DISALLOWED = "batch, edit, todoread" := rfl
  have hbad1 : executeCall registry bad =
      (ToolPartState.error bad.parameters
        ("Tool '" ++ bad.tool ++ "' is not allowed in batch. Disallowed tools: " ++
          joinSep ", " DISALLOWED), false,
        "<tool_result name=\"" ++ bad.tool ++ "\">\nError: " ++
          ("Tool '" ++ bad.tool ++ "' is not allowed in batch. Disallowed tools: " ++
            joinSep ", " DISALLOWED) ++ "\n</tool_result>") := by
    unfold executeCall execCore
    rw [hbad]
    rfl
  have hcount : ∀ l : List Call, (∀ c ∈ l, goodCall registry c) →
      (l.map (executeCall registry)).countP (fun r => r.2.1) = l.length := by
    intro l hl
    rw [show l.length = (l.map (executeCall registry)).length from (List.length_map _ _).symm]
    rw [List.countP_eq_length]
    intro a ha
    obtain ⟨c, hc, hceq⟩ := List.mem_map.mp ha
    obtain ⟨r, hr⟩ := hl c hc
    subst hceq
    show (executeCall registry c).2.1 = true
    unfold executeCall
    rw [hr]
  have hpre : ∀ c ∈ pre, goodCall registry c :=
    fun c hc => hgood c (List.mem_append.mpr (Or.inl hc))
  have hpost : ∀ c ∈ post, goodCall registry c :=
    fun c hc => hgood c (List.mem_append.mpr (Or.inr hc))
  have hsucc : ((pre ++ bad :: post).map (executeCall registry)).countP (fun r => r.2.1) =
      pre.length + post.length := by
    rw [List.map_append, List.map_cons, List.countP_append, List.countP_cons,
      hcount pre hpre, hcount post hpost, hbad1]
    simp
  have hlen : (pre ++ bad :: post).length = pre.length + post.length + 1 := by
    rw [List.length_append, List.length_cons]
    omega
  refine ⟨?_, ?_, ?_, ?_, ?_⟩
  · show ((pre ++ bad :: post).map (executeCall registry)).map (fun r => r.1) = _
    rw [List.map_append, List.map_cons, List.map_append, List.map_cons,
      List.map_map, List.map_map, hbad1]
    rfl
  · intro c hc
    obtain ⟨r, hr⟩ := hgood c hc
    refine ⟨r, ?_⟩
    unfold executeCall
    rw [hr]
  · show ((pre ++ bad :: post).map (executeCall registry)).countP (fun r => r.2.1) = _
    exact hsucc
  · show (pre ++ bad :: post).length -
      ((pre ++ bad :: post).map (executeCall registry)).countP (fun r => r.2.1) = 1
    rw [hsucc, hlen]
    omega
  · show "Batch execution (" ++
      toString (((pre ++ bad :: post).map (executeCall registry)).countP (fun r => r.2.1)) ++ "/" ++
      toString (pre ++ bad :: post).length ++ " successful)" = _
    rw [hsucc, hlen]

/-- Registry with a single successful `read` tool, for the witness below. -/
def wRegistry : List (String × (String → Except String ToolResult)) :=
  [("read", fun _ => .ok ⟨"Read", "abc"⟩)]

/-- Witness for `batch_single_disallowed`: a 3-call batch whose middle call
names the disallowed `edit` tool reports `2/3 successful`. -/
theorem batch_single_disallowed_witness :
    (run wRegistry ([⟨"read", "a"⟩] ++ (⟨"edit", "b"⟩ : Call) :: [⟨"read", "c"⟩])).parts =
      List.map (fun c => (executeCall wRegistry c).1) [⟨"read", "a"⟩] ++
        ToolPartState.error (Call.mk "edit" "b").parameters
          ("Tool '" ++ (Call.mk "edit" "b").tool ++
            "' is not allowed in batch. Disallowed tools: " ++ joinSep ", " DISALLOWED) ::
        List.map (fun c => (executeCall wRegistry c).1) [⟨"read", "c"⟩] ∧
    (∀ c ∈ [(⟨"read", "a"⟩ : Call)] ++ [(⟨"read", "c"⟩ : Call)], ∃ r : ToolResult,
      (executeCall wRegistry c).1 = ToolPartState.completed c.parameters r.output r.title) ∧
    (run wRegistry ([⟨"read", "a"⟩] ++ (⟨"edit", "b"⟩ : Call) :: [⟨"read", "c"⟩])).successful =
      [(⟨"read", "a"⟩ : Call)].length + [(⟨"read", "c"⟩ : Call)].length ∧
    (run wRegistry ([⟨"read", "a"⟩] ++ (⟨"edit", "b"⟩ : Call) :: [⟨"read", "c"⟩])).failed = 1 ∧
    (run wRegistry ([⟨"read", "a"⟩] ++ (⟨"edit", "b"⟩ : Call) :: [⟨"read", "c"⟩])).title =
      "Batch execution (" ++
        toString ([(⟨"read", "a"⟩ : Call)].length + [(⟨"read", "c"⟩ : Call)].length) ++ "/" ++
        toString ([(⟨"read", "a"⟩ : Call)].length + [(⟨"read", "c"⟩ : Call)].length + 1) ++
        " successful)" :=
  batch_single_disallowed wRegistry [⟨"read", "a"⟩] [⟨"read", "c"⟩] ⟨"edit", "b"⟩
    (by decide)
    (by
      intro c hc
      simp only [List.mem_append, List.mem_singleton] at hc
      rcases hc with h | h <;> subst h <;> exact ⟨⟨"Read", "abc"⟩, rfl⟩)


end BatchTool

namespace JsonMigration

/-- Source: `json-migration.ts` legacy `project/*.json` file (the fields the
importer checks; payload kept abstract). -/
structure ProjectFile where
  id : Option String
  data : String
  deriving DecidableEq, Repr

/-- Source: `json-migration.ts` legacy `session/*/*.json` file. -/
structure SessionFile where
  id : Option String
  projectID : Option String
  data : String
  deriving DecidableEq, Repr

/-- Source: `json-migration.ts` legacy `message/*/*.json` file. -/
structure MessageFile where
  id : Option String
  sessionID : Option String
  data : String
  deriving DecidableEq, Repr

/-- Source: `json-migration.ts` legacy `part/*/*.json` file. -/
structure PartFile where
  id : Option String
  messageID : Option String
  sessionID : Option String
  data : String
  deriving DecidableEq, Repr

/-- Source: `json-migration.ts` legacy file keyed by its basename
(`session_diff`, `todo`, `permission`, `session_share`, `share`). -/
structure KeyedFile where
  key : String
  data : String
  deriving DecidableEq, Repr

/-- The legacy JSON storage tree scanned by the importer; `hasLegacy` models
the existence of the `<storage>/migration` file. -/
structure Storage where
  hasLegacy : Bool
  projects : List ProjectFile
  sessions : List SessionFile
  messages : List MessageFile
  parts : List PartFile
  diffs : List KeyedFile
  todos : List KeyedFile
  permissions : List KeyedFile
  sessionShares : List KeyedFile
  shares : List KeyedFile
  deriving DecidableEq, Repr

/-- The SQLite tables the importer writes, as key → payload association lists. -/
structure DB where
  project : List (String × String)
  session : List (String × String)
  message : List (String × String)
  part : List (String × String)
  session_diff : List (String × String)
  todo : List (String × String)
  permission : List (String × String)
  session_share : List (String × String)
  share : List (String × String)
  deriving DecidableEq, Repr

/-- Source: `.onConflictDoNothing()`: insert only when the key is absent. -/
def insertIgnore (t : List (String × String)) (k v : String) : List (String × String) :=
  if (t.lookup k).isSome then t else t ++ [(k, v)]

/-- Observable importer side effects: an insert attempt on a table, or the
write of the `sqlite-migrated` marker file. -/
inductive Op
  | insert (table key : String)
  | writeMarker (path : String)
  deriving DecidableEq, Repr

/-- State across importer invocations: whether the marker file exists, and
the database contents. -/
structure MigState where
  marker : Bool
  db : DB
  deriving DecidableEq, Repr

/-- Source: one import loop of `json-migration.ts`: skip files missing
required fields (`key f = none`), skip orphans failing the foreign-key check
(`fkOk`), otherwise insert with conflict-ignore and record the attempt. -/
def importPhase {F : Type} (tableName : String) (key : F → Option String)
    (fkOk : DB → F → Bool) (ins : DB → String → F → DB) :
    List F → DB → List Op × DB
  | [], db => ([], db)
  | f :: rest, db =>
    match key f with
    | none => importPhase tableName key fkOk ins rest db
    | some k =>
      if fkOk db f then
        (Op.insert tableName k :: (importPhase tableName key fkOk ins rest (ins db k f)).1,
          (importPhase tableName key fkOk ins rest (ins db k f)).2)
      else importPhase tableName key fkOk ins rest db

/-- Source: `json-migration.ts` import body, phases in source order. -/
def runImport (storage : Storage) (db : DB) : List Op × DB :=
  let p1 := importPhase "project" (fun f => f.id) (fun _ _ => true)
    (fun db k f => { db with project := insertIgnore db.project k f.data }) storage.projects db
  let p2 := importPhase "session"
    (fun f => if f.projectID.isSome then f.id else none)
    (fun db f => (db.project.lookup (f.projectID.getD "")).isSome)
    (fun db k f => { db with session := insertIgnore db.session k f.data }) storage.sessions p1.2
  let p3 := importPhase "message"
    (fun f => if f.sessionID.isSome then f.id else none)
    (fun db f => (db.session.lookup (f.sessionID.getD "")).isSome)
    (fun db k f => { db with message := insertIgnore db.message k f.data }) storage.messages p2.2
  let p4 := importPhase "part"
    (fun f => if f.messageID.isSome ∧ f.sessionID.isSome then f.id else none)
    (fun db f => (db.message.lookup (f.messageID.getD "")).isSome)
    (fun db k f => { db with part := insertIgnore db.part k f.data }) storage.parts p3.2
  let p5 := importPhase "session_diff" (fun f => some f.key)
    (fun db f => (db.session.lookup f.key).isSome)
    (fun db k f => { db with session_diff := insertIgnore db.session_diff k f.data })
    storage.diffs p4.2
  let p6 := importPhase "todo" (fun f => some f.key)
    (fun db f => (db.session.lookup f.key).isSome)
    (fun db k f => { db with todo := insertIgnore db.todo k f.data }) storage.todos p5.2
  let p7 := importPhase "permission" (fun f => some f.key)
    (fun db f => (db.project.lookup f.key).isSome)
    (fun db k f => { db with permission := insertIgnore db.permission k f.data })
    storage.permissions p6.2
  let p8 := importPhase "session_share" (fun f => some f.key)
    (fun db f => (db.session.lookup f.key).isSome)
    (fun db k f => { db with session_share := insertIgnore db.session_share k f.data })
    storage.sessionShares p7.2
  let p9 := importPhase "share" (fun f => some f.key) (fun _ _ => true)
    (fun db k f => { db with share := insertIgnore db.share k f.data }) storage.shares p8.2
  (p1.1 ++ p2.1 ++ p3.1 ++ p4.1 ++ p5.1 ++ p6.1 ++ p7.1 ++ p8.1 ++ p9.1, p9.2)

/-- Source: `json-migration.ts` `migrateFromJson`: return immediately when the
marker exists; write only the marker when there is no legacy tree; otherwise
run the whole import and write the marker last. -/
def migrateFromJson (storageDir : String) (storage : Storage) (s : MigState) :
    List Op × MigState :=
  if s.marker then ([], s)
  else if storage.hasLegacy = false then
    ([Op.writeMarker (storageDir ++ "/sqlite-migrated")], ⟨true, s.db⟩)
  else
    ((runImport storage s.db).1 ++ [Op.writeMarker (storageDir ++ "/sqlite-migrated")],
      ⟨true, (runImport storage s.db).2⟩)

end JsonMigration

namespace JsonMigration

/-- C8: after a successful import the `sqlite-migrated` marker is the last
side effect; whenever the marker is present the importer returns immediately
with no database operation and no state change; hence running the importer
twice is a no-op after the first success. -/
theorem migrateFromJson_idempotent (storageDir : String) (storage : Storage) (s : MigState) :
    (migrateFromJson storageDir storage s).2.marker = true ∧
    (s.marker = true → migrateFromJson storageDir storage s = ([], s)) ∧
    (s.marker = false →
      (migrateFromJson storageDir storage s).1.getLast? =
        some (Op.writeMarker (storageDir ++ "/sqlite-migrated"))) ∧
    migrateFromJson storageDir storage (migrateFromJson storageDir storage s).2 =
      ([], (migrateFromJson storageDir storage s).2) := by
  by_cases hm : s.marker = true
  · have h1 : migrateFromJson storageDir storage s = ([], s) := by
      unfold migrateFromJson
      rw [if_pos hm]
    refine ⟨by rw [h1]; exact hm, fun _ => h1, fun hf => absurd hm (by simp [hf]), ?_⟩
    rw [h1]
    show migrateFromJson storageDir storage s = ([], s)
    exact h1
  · by_cases hl : storage.hasLegacy = false
    · have h1 : migrateFromJson storageDir storage s =
          ([Op.writeMarker (storageDir ++ "/sqlite-migrated")], ⟨true, s.db⟩) := by
        unfold migrateFromJson
        rw [if_neg hm, if_pos hl]
      refine ⟨by rw [h1], fun ht => absurd ht hm, fun _ => by rw [h1]; rfl, ?_⟩
      rw [h1]
      show migrateFromJson storageDir storage ⟨true, s.db⟩ = ([], ⟨true, s.db⟩)
      unfold migrateFromJson
      rw [if_pos rfl]
    · have h1 : migrateFromJson storageDir storage s =
          ((runImport storage s.db).1 ++ [Op.writeMarker (storageDir ++ "/sqlite-migrated")],
            ⟨true, (runImport storage s.db).2⟩) := by
        unfold migrateFromJson
        rw [if_neg hm, if_neg hl]
      refine ⟨by rw [h1], fun ht => absurd ht hm,
        fun _ => by rw [h1]; exact List.getLast?_concat _, ?_⟩
      rw [h1]
      show migrateFromJson storageDir storage ⟨true, (runImport storage s.db).2⟩ =
        ([], ⟨true, (runImport storage s.db).2⟩)
      unfold migrateFromJson
      rw [if_pos rfl]

end JsonMigration

namespace JsonMigration

/-- Concrete legacy tree for the witness: one project and one session. -/
def wStorage : Storage :=
  ⟨true, [⟨some "p1", "pdata"⟩], [⟨some "s1", some "p1", "sdata"⟩], [], [], [], [], [], [], []⟩

/-- Concrete initial state for the witness: no marker, empty database. -/
def wState : MigState := ⟨false, ⟨[], [], [], [], [], [], [], [], []⟩⟩

/-- Witness for `migrateFromJson_idempotent` at a concrete two-file tree. -/
theorem migrateFromJson_idempotent_witness :
    (migrateFromJson "/data/storage" wStorage wState).2.marker = true ∧
    (wState.marker = true → migrateFromJson "/data/storage" wStorage wState = ([], wState)) ∧
    (wState.marker = false →
      (migrateFromJson "/data/storage" wStorage wState).1.getLast? =
        some (Op.writeMarker ("/data/storage" ++ "/sqlite-migrated"))) ∧
    migrateFromJson "/data/storage" wStorage (migrateFromJson "/data/storage" wStorage wState).2 =
      ([], (migrateFromJson "/data/storage" wStorage wState).2) :=
  migrateFromJson_idempotent "/data/storage" wStorage wState

end JsonMigration

/-- Model of JavaScript `String.prototype.trimEnd`. -/
def trimEnd (s : String) : String :=
  ((s.data.reverse.dropWhile Char.isWhitespace).reverse).asString

namespace SessionCompaction

/-- JavaScript error values that can be thrown out of the compaction stream
loop, as distinguished by the `catch` in `compaction.ts`. -/
inductive JsError
  | domAbort (message : String)
  | outputLength
  | loadAPIKey (message : String)
  | jsError (message : String)
  | other (json : String)
  deriving DecidableEq, Repr

/-- Errors recorded on the summary assistant message (`MessageV2.AbortedError`,
`MessageV2.OutputLengthError`, `MessageV2.AuthError`, `NamedError.Unknown`). -/
inductive MsgError
  | aborted (message : String)
  | outputLength
  | auth (providerID message : String)
  | unknown (message : String)
  deriving DecidableEq, Repr

/-- Source: `MessageV2.AbortedError.isInstance`. -/
def MsgError.isAborted : MsgError → Bool
  | .aborted _ => true
  | _ => false

/-- Whether a thrown value is the abort `DOMException`. -/
def JsError.isAbort : JsError → Bool
  | .domAbort _ => true
  | _ => false

/-- Source: the `catch` switch of `SessionCompaction.run`, mapping a thrown
value to the error recorded on the summary message. -/
def mapError (providerID : String) : JsError → MsgError
  | .domAbort m => .aborted m
  | .outputLength => .outputLength
  | .loadAPIKey m => .auth providerID m
  | .jsError m => .unknown m
  | .other j => .unknown j

/-- Source: the summary assistant message, restricted to the fields
`SessionCompaction.run` manipulates. -/
structure AssistantMsg where
  summary : Bool
  error : Option MsgError
  cost : Int
  tokens : Tokens
  timeCreated : Nat
  timeCompleted : Option Nat
  deriving DecidableEq, Repr

/-- Source: the streamed text part of the summary message. -/
structure TextPart where
  text : String
  deriving DecidableEq, Repr

/-- Source: `Session.getUsage` result consumed at `finish-step`. -/
structure Usage where
  cost : Int
  tokens : Tokens
  deriving DecidableEq, Repr

/-- Source: the provider's `fullStream` events handled by the loop. -/
inductive StreamEvent
  | textDelta (text : String)
  | textEnd
  | finishStep (usage : Usage)
  | errorEvent (e : JsError)
  | otherEvent
  deriving DecidableEq, Repr

/-- Source: events published on the bus during `run`. -/
inductive BusEvent
  | compacted (sessionID : String)
  | sessionError (sessionID : String)
  deriving DecidableEq, Repr

/-- Source: the session draft fields `run` touches (`draft.time.compacting`). -/
structure SessionInfo where
  compacting : Option Nat
  deriving DecidableEq, Repr

/-- Source: `Session.update` setting `draft.time.compacting = Date.now()`. -/
def setCompacting (s : SessionInfo) (now : Nat) : SessionInfo := { s with compacting := some now }

/-- Source: the deferred `Session.update` clearing `draft.time.compacting`. -/
def clearCompacting (s : SessionInfo) : SessionInfo := { s with compacting := none }

/-- Whether the abort signal has fired by iteration `idx`
(`signal.throwIfAborted()` at the top of the loop body). -/
def aborts (abortAt : Option Nat) (idx : Nat) : Bool :=
  match abortAt with
  | none => false
  | some k => decide (k ≤ idx)

/-- Source: the `for await (const value of stream.fullStream)` loop of
`SessionCompaction.run`, returning the final part, message, and the thrown
value (abort or `error` stream event) if any. -/
def streamLoop (abortAt : Option Nat) :
    List StreamEvent → Nat → TextPart → AssistantMsg →
      TextPart × AssistantMsg × Option JsError
  | [], _, part, msg => (part, msg, none)
  | ev :: rest, idx, part, msg =>
    if aborts abortAt idx then (part, msg, some (.domAbort "This operation was aborted"))
    else
      match ev with
      | .textDelta t => streamLoop abortAt rest (idx + 1) { part with text := part.text ++ t } msg
      | .textEnd => streamLoop abortAt rest (idx + 1) { part with text := trimEnd part.text } msg
      | .finishStep u =>
        streamLoop abortAt rest (idx + 1) part
          { msg with cost := msg.cost + u.cost, tokens := u.tokens }
      | .errorEvent e => (part, msg, some e)
      | .otherEvent => streamLoop abortAt rest (idx + 1) part msg

/-- Source: the summary assistant message as created by `Session.updateMessage`
at the start of `run` (`summary: true`, zero cost and tokens). -/
def initMsg (now : Nat) : AssistantMsg :=
  { summary := true, error := none, cost := 0, tokens := ⟨0, 0, 0, ⟨0, 0⟩⟩,
    timeCreated := now, timeCompleted := none }

/-- Source: the empty text part created at the start of `run`. -/
def initPart : TextPart := { text := "" }

/-- Result of a completed `run` invocation. -/
structure RunResult where
  msg : AssistantMsg
  part : TextPart
  published : List BusEvent
  deriving DecidableEq, Repr

/-- Source: `SessionCompaction.run`.  `events`/`abortAt` model the provider
stream and the cancellation signal; `preFail` models a rejection thrown
before the stream loop (for example by `Provider.getModel`), which escapes
`run` but still triggers the deferred cleanup (`await using`).  The second
component is the session state after `run` exits on any path. -/
def run (sessionID providerID : String) (now : Nat) (events : List StreamEvent)
    (abortAt : Option Nat) (preFail : Option String) (session : SessionInfo) :
    Except String RunResult × SessionInfo :=
  let session1 := setCompacting session now
  match preFail with
  | some e => (.error e, clearCompacting session1)
  | none =>
    let r := streamLoop abortAt events 0 initPart (initMsg now)
    let msg1 :=
      match r.2.2 with
      | none => r.2.1
      | some e => { r.2.1 with error := some (mapError providerID e) }
    let publishedErr :=
      match r.2.2 with
      | none => ([] : List BusEvent)
      | some _ => [BusEvent.sessionError sessionID]
    let msg2 := { msg1 with timeCompleted := some now }
    let success := msg2.error.isNone ||
      (match msg2.error with
       | some er => er.isAborted
       | none => false)
    let msg3 := if success then { msg2 with summary := true } else msg2
    let published := publishedErr ++ (if success then [BusEvent.compacted sessionID] else [])
    (.ok ⟨msg3, r.1, published⟩, clearCompacting session1)

end SessionCompaction

namespace SessionCompaction

theorem streamLoop_error_eq (abortAt : Option Nat) :
    ∀ (evs : List StreamEvent) (idx : Nat) (part : TextPart) (msg : AssistantMsg),
      (streamLoop abortAt evs idx part msg).2.1.error = msg.error := by
  intro evs
  induction evs with
  | nil => intro idx part msg; rfl
  | cons ev rest ih =>
    intro idx part msg
    rw [streamLoop.eq_def]
    dsimp only
    split_ifs with ha
    · rfl
    · cases ev <;> simp [ih]

theorem mapError_not_aborted (providerID : String) (e : JsError) (he : e.isAbort = false) :
    (mapError providerID e).isAborted = false := by
  cases e <;> simp_all [mapError, JsError.isAbort, MsgError.isAborted]

/-- C10: `run` sets `time.compacting` before the stream loop begins and the
deferred cleanup clears it on every exit path — normal completion, stream
error, abort, and even a pre-stream failure that escapes `run` — so no
session is left marked as compacting. -/
theorem run_compacting_lifecycle (sessionID providerID : String) (now : Nat)
    (events : List StreamEvent) (abortAt : Option Nat) (preFail : Option String)
    (session : SessionInfo) :
    (setCompacting session now).compacting = some now ∧
    (run sessionID providerID now events abortAt preFail session).2.compacting = none := by
  refine ⟨rfl, ?_⟩
  cases preFail <;> rfl

/-- C3: if the stream completes with no thrown value the summary message ends
with `summary = true` and `time.completed` set and exactly a
`session.compacted` event is published; if the stream throws a non-abort
error, that error is recorded on the message, `time.completed` is still set,
and `run` still returns normally. -/
theorem run_stream_outcomes (sessionID providerID : String) (now : Nat)
    (events : List StreamEvent) (abortAt : Option Nat) (session : SessionInfo) :
    ((streamLoop abortAt events 0 initPart (initMsg now)).2.2 = none →
      ∃ r : RunResult,
        (run sessionID providerID now events abortAt none session).1 = .ok r ∧
        r.msg.summary = true ∧
        r.msg.timeCompleted = some now ∧
        r.published = [BusEvent.compacted sessionID]) ∧
    (∀ e : JsError, (streamLoop abortAt events 0 initPart (initMsg now)).2.2 = some e →
      e.isAbort = false →
      ∃ r : RunResult,
        (run sessionID providerID now events abortAt none session).1 = .ok r ∧
        r.msg.error = some (mapError providerID e) ∧
        r.msg.timeCompleted = some now) := by
  have hE : (streamLoop abortAt events 0 initPart (initMsg now)).2.1.error = none :=
    streamLoop_error_eq abortAt events 0 initPart (initMsg now)
  constructor
  · intro h
    unfold run
    simp only [h, hE]
    exact ⟨_, rfl, rfl, rfl, rfl⟩
  · intro e h he
    unfold run
    simp only [h, hE]
    have hsucc : (mapError providerID e).isAborted = false := mapError_not_aborted providerID e he
    simp only [hsucc]
    exact ⟨_, rfl, rfl, rfl⟩

end SessionCompaction

namespace SessionCompaction

/-- Witness for `run_stream_outcomes`: a two-delta stream with no error. -/
theorem run_stream_outcomes_witness :
    ((streamLoop none [StreamEvent.textDelta "a summary", StreamEvent.textEnd] 0 initPart
        (initMsg 5)).2.2 = none →
      ∃ r : RunResult,
        (run "ses" "prov" 5 [StreamEvent.textDelta "a summary", StreamEvent.textEnd]
            none none ⟨none⟩).1 = .ok r ∧
        r.msg.summary = true ∧
        r.msg.timeCompleted = some 5 ∧
        r.published = [BusEvent.compacted "ses"]) ∧
    (∀ e : JsError,
      (streamLoop none [StreamEvent.textDelta "a summary", StreamEvent.textEnd] 0 initPart
          (initMsg 5)).2.2 = some e →
      e.isAbort = false →
      ∃ r : RunResult,
        (run "ses" "prov" 5 [StreamEvent.textDelta "a summary", StreamEvent.textEnd]
            none none ⟨none⟩).1 = .ok r ∧
        r.msg.error = some (mapError "prov" e) ∧
        r.msg.timeCompleted = some 5) :=
  run_stream_outcomes "ses" "prov" 5 [StreamEvent.textDelta "a summary", StreamEvent.textEnd]
    none ⟨none⟩

end SessionCompaction

namespace SessionCompaction

/-- Source: `compaction.ts` `PRUNE_MINIMUM = 20_000`. -/
def PRUNE_MINIMUM : Nat := 20000

/-- Source: `compaction.ts` `PRUNE_PROTECT = 40_000`. -/
def PRUNE_PROTECT : Nat := 40000

/-- Message role (`user` / `assistant`). -/
inductive Role
  | user
  | assistant
  deriving DecidableEq, Repr

/-- Message part, restricted to the fields `prune` inspects: tool parts carry
their state (`completed` keeps the output and the optional `compacted`
timestamp, which is non-zero in practice so its JavaScript truthiness is
`isSome`). -/
inductive PartV
  | text (content : String)
  | file
  | toolPending (input : String)
  | toolCompleted (output : String) (compacted : Option Nat)
  | toolError (input errorMsg : String)
  deriving DecidableEq, Repr

/-- Whether a part is a tool part of any status. -/
def PartV.isTool : PartV → Bool
  | .toolPending _ => true
  | .toolCompleted _ _ => true
  | .toolError _ _ => true
  | _ => false

/-- A message with its parts (`Session.messages` row), restricted to the
fields `prune` inspects. -/
structure Msg where
  role : Role
  summary : Bool
  parts : List PartV
  deriving DecidableEq, Repr

/-- State of the backward walk in `prune`: the `turns`, `total`, `pruned`
counters, the collected positions `toPrune` (message index × part index) and
whether `break loop` has happened. -/
structure ScanSt where
  turns : Nat
  total : Nat
  pruned : Nat
  toPrune : List (Nat × Nat)
  broke : Bool
  deriving DecidableEq, Repr

/-- Initial scan state. -/
def st0 : ScanSt := ⟨0, 0, 0, [], false⟩

/-- Source: the body of the inner part loop of `prune` for one part at
position `(i, j)`. -/
def scanPart (estimate : String → Nat) (i j : Nat) (p : PartV) (st : ScanSt) : ScanSt :=
  if st.broke then st
  else
    match p with
    | .toolCompleted output compacted =>
      if compacted.isSome then { st with broke := true }
      else
        if PRUNE_PROTECT < st.total + estimate output then
          { st with
            total := st.total + estimate output
            pruned := st.pruned + estimate output
            toPrune := (i, j) :: st.toPrune }
        else { st with total := st.total + estimate output }
    | _ => st

/-- Source: the inner part loop of `prune`, walking parts from the last index
down to `j` (the recursion scans the tail — the newer parts — first). -/
def scanParts (estimate : String → Nat) (i : Nat) : Nat → List PartV → ScanSt → ScanSt
  | _, [], st => st
  | j, p :: rest, st => scanPart estimate i j p (scanParts estimate i (j + 1) rest st)

/-- Source: the checks of the outer message loop of `prune` after the `turns`
counter has been updated: `continue` below two user turns, `break loop` at a
summary assistant message, otherwise scan the parts backwards. -/
def scanMsgBody (estimate : String → Nat) (i : Nat) (m : Msg) (st : ScanSt) : ScanSt :=
  if st.turns < 2 then st
  else if m.role = Role.assistant ∧ m.summary then { st with broke := true }
  else scanParts estimate i 0 m.parts st

/-- Source: the body of the outer message loop of `prune` for one message at
index `i`: count user turns, then apply the skip/stop/scan checks. -/
def scanMsg (estimate : String → Nat) (i : Nat) (m : Msg) (st : ScanSt) : ScanSt :=
  if st.broke then st
  else
    scanMsgBody estimate i m
      { st with turns := if m.role = Role.user then st.turns + 1 else st.turns }

/-- Source: the outer message loop of `prune`, walking messages from the last
index down to `i` (the recursion scans the tail — the newer messages —
first). -/
def scanMsgs (estimate : String → Nat) : Nat → List Msg → ScanSt → ScanSt
  | _, [], st => st
  | i, m :: rest, st => scanMsg estimate i m (scanMsgs estimate (i + 1) rest st)

/-- Source: the whole collection walk of `prune`. -/
def scan (estimate : String → Nat) (msgs : List Msg) : ScanSt :=
  scanMsgs estimate 0 msgs st0

/-- Source: `part.state.time.compacted = Date.now()` guarded by the
re-check `status === "completed"`. -/
def markPart (now : Nat) : PartV → PartV
  | .toolCompleted output _ => .toolCompleted output (some now)
  | p => p

/-- Mark the parts of one message whose positions are in `toPrune`. -/
def markParts (toPrune : List (Nat × Nat)) (now i : Nat) : Nat → List PartV → List PartV
  | _, [] => []
  | j, p :: rest =>
    (if (i, j) ∈ toPrune then markPart now p else p) ::
      markParts toPrune now i (j + 1) rest

/-- Mark one message. -/
def markMsg (toPrune : List (Nat × Nat)) (now i : Nat) (m : Msg) : Msg :=
  { m with parts := markParts toPrune now i 0 m.parts }

/-- Source: the marking loop of `prune` (`Session.updatePart` on every
collected part), expressed positionally. -/
def markMsgs (toPrune : List (Nat × Nat)) (now : Nat) : Nat → List Msg → List Msg
  | _, [] => []
  | i, m :: rest => markMsg toPrune now i m :: markMsgs toPrune now (i + 1) rest

/-- Source: `compaction.ts` `SessionCompaction.prune` as a function from the
session's messages to the updated messages, with `Token.estimate` (whose
module is outside the embedded sources) as a parameter and `Date.now()` as
`now`. -/
def prune (estimate : String → Nat) (now : Nat) (msgs : List Msg) : List Msg :=
  if PRUNE_MINIMUM < (scan estimate msgs).pruned then
    markMsgs (scan estimate msgs).toPrune now 0 msgs
  else msgs

end SessionCompaction


namespace SessionCompaction

/-- Number of user messages in a list. -/
def countUsers (msgs : List Msg) : Nat := msgs.countP (fun m => decide (m.role = Role.user))

theorem scanPart_toPrune_subset (e : String → Nat) (i j : Nat) (p : PartV) (st : ScanSt) :
    st.toPrune ⊆ (scanPart e i j p st).toPrune := by
  unfold scanPart
  by_cases hb : st.broke = true
  · rw [if_pos hb]
    exact fun a ha => ha
  · rw [if_neg hb]
    cases p with
    | text c => exact fun a ha => ha
    | file => exact fun a ha => ha
    | toolPending inp => exact fun a ha => ha
    | toolError inp emsg => exact fun a ha => ha
    | toolCompleted output compacted =>
      dsimp only
      by_cases hc : compacted.isSome = true
      · rw [if_pos hc]
        exact fun a ha => ha
      · rw [if_neg hc]
        by_cases hp : PRUNE_PROTECT < st.total + e output
        · rw [if_pos hp]
          exact fun a ha => List.mem_cons_of_mem _ ha
        · rw [if_neg hp]
          exact fun a ha => ha

theorem scanParts_toPrune_subset (e : String → Nat) (i : Nat) :
    ∀ (ps : List PartV) (j : Nat) (st : ScanSt),
      st.toPrune ⊆ (scanParts e i j ps st).toPrune := by
  intro ps
  induction ps with
  | nil => intro j st; exact List.Subset.refl _
  | cons p rest ih =>
    intro j st
    exact (ih (j + 1) st).trans (scanPart_toPrune_subset e i j p _)

theorem scanMsg_toPrune_subset (e : String → Nat) (i : Nat) (m : Msg) (st : ScanSt) :
    st.toPrune ⊆ (scanMsg e i m st).toPrune := by
  unfold scanMsg scanMsgBody
  by_cases hb : st.broke = true
  · rw [if_pos hb]
    exact fun a ha => ha
  · rw [if_neg hb]
    by_cases h1 : ({ st with turns := if m.role = Role.user then st.turns + 1 else st.turns } : ScanSt).turns < 2
    · rw [if_pos h1]
      exact fun a ha => ha
    · rw [if_neg h1]
      by_cases h2 : m.role = Role.assistant ∧ m.summary = true
      · rw [if_pos h2]
        exact fun a ha => ha
      · rw [if_neg h2]
        have h3 := scanParts_toPrune_subset e i m.parts 0
          { st with turns := if m.role = Role.user then st.turns + 1 else st.turns }
        exact fun a ha => h3 ha

theorem scanMsgs_toPrune_subset (e : String → Nat) :
    ∀ (msgs : List Msg) (i : Nat) (st : ScanSt),
      st.toPrune ⊆ (scanMsgs e i msgs st).toPrune := by
  intro msgs
  induction msgs with
  | nil => intro i st; exact List.Subset.refl _
  | cons m rest ih =>
    intro i st
    exact (ih (i + 1) st).trans (scanMsg_toPrune_subset e i m _)


theorem scanPart_broke (e : String → Nat) (i j : Nat) (p : PartV) (st : ScanSt)
    (h : st.broke = true) : scanPart e i j p st = st := by
  unfold scanPart
  rw [if_pos h]

theorem scanParts_broke (e : String → Nat) (i : Nat) :
    ∀ (ps : List PartV) (j : Nat) (st : ScanSt), st.broke = true →
      scanParts e i j ps st = st := by
  intro ps
  induction ps with
  | nil => intro j st _; rfl
  | cons p rest ih =>
    intro j st h
    show scanPart e i j p (scanParts e i (j + 1) rest st) = st
    rw [ih (j + 1) st h, scanPart_broke e i j p st h]

theorem scanMsg_broke (e : String → Nat) (i : Nat) (m : Msg) (st : ScanSt)
    (h : st.broke = true) : scanMsg e i m st = st := by
  unfold scanMsg
  rw [if_pos h]

theorem scanMsgs_broke (e : String → Nat) :
    ∀ (msgs : List Msg) (i : Nat) (st : ScanSt), st.broke = true →
      scanMsgs e i msgs st = st := by
  intro msgs
  induction msgs with
  | nil => intro i st _; rfl
  | cons m rest ih =>
    intro i st h
    show scanMsg e i m (scanMsgs e (i + 1) rest st) = st
    rw [ih (i + 1) st h, scanMsg_broke e i m st h]

theorem scanPart_turns (e : String → Nat) (i j : Nat) (p : PartV) (st : ScanSt) :
    (scanPart e i j p st).turns = st.turns := by
  unfold scanPart
  by_cases hb : st.broke = true
  · rw [if_pos hb]
  · rw [if_neg hb]
    cases p with
    | text c => rfl
    | file => rfl
    | toolPending inp => rfl
    | toolError inp emsg => rfl
    | toolCompleted output compacted =>
      dsimp only
      by_cases hc : compacted.isSome = true
      · rw [if_pos hc]
      · rw [if_neg hc]
        by_cases hp : PRUNE_PROTECT < st.total + e output
        · rw [if_pos hp]
        · rw [if_neg hp]

theorem scanParts_turns (e : String → Nat) (i : Nat) :
    ∀ (ps : List PartV) (j : Nat) (st : ScanSt),
      (scanParts e i j ps st).turns = st.turns := by
  intro ps
  induction ps with
  | nil => intro j st; rfl
  | cons p rest ih =>
    intro j st
    show (scanPart e i j p (scanParts e i (j + 1) rest st)).turns = st.turns
    rw [scanPart_turns, ih]

theorem scanMsgs_turns (e : String → Nat) :
    ∀ (msgs : List Msg) (i : Nat) (st : ScanSt),
      (scanMsgs e i msgs st).broke = false →
      (scanMsgs e i msgs st).turns = st.turns + countUsers msgs := by
  intro msgs
  induction msgs with
  | nil =>
    intro i st _
    show st.turns = st.turns + countUsers []
    simp [countUsers]
  | cons m rest ih =>
    intro i st h
    have hstep : scanMsgs e i (m :: rest) st =
        scanMsg e i m (scanMsgs e (i + 1) rest st) := rfl
    rw [hstep] at h ⊢
    by_cases hb : (scanMsgs e (i + 1) rest st).broke = true
    · rw [scanMsg_broke e i m _ hb] at h
      rw [hb] at h
      exact absurd h (by simp)
    · have hb' : (scanMsgs e (i + 1) rest st).broke = false := by
        revert hb; cases (scanMsgs e (i + 1) rest st).broke <;> simp
      have ihh := ih (i + 1) st hb'
      have hcount : countUsers (m :: rest) =
          countUsers rest + (if m.role = Role.user then 1 else 0) := by
        unfold countUsers
        rw [List.countP_cons]
        by_cases hu : m.role = Role.user <;> simp [hu]
      unfold scanMsg scanMsgBody at h ⊢
      rw [if_neg (by simp [hb'])] at h ⊢
      by_cases h1 : (({ scanMsgs e (i + 1) rest st with
          turns := if m.role = Role.user then (scanMsgs e (i + 1) rest st).turns + 1
            else (scanMsgs e (i + 1) rest st).turns } : ScanSt)).turns < 2
      · rw [if_pos h1] at h ⊢
        show (if m.role = Role.user then (scanMsgs e (i + 1) rest st).turns + 1
          else (scanMsgs e (i + 1) rest st).turns) = st.turns + countUsers (m :: rest)
        rw [ihh, hcount]
        split_ifs <;> omega
      · rw [if_neg h1] at h ⊢
        by_cases h2 : m.role = Role.assistant ∧ m.summary = true
        · rw [if_pos h2] at h
          exact absurd h (by simp)
        · rw [if_neg h2] at h ⊢
          rw [scanParts_turns]
          show (if m.role = Role.user then (scanMsgs e (i + 1) rest st).turns + 1
            else (scanMsgs e (i + 1) rest st).turns) = st.turns + countUsers (m :: rest)
          rw [ihh, hcount]
          split_ifs <;> omega

theorem scanParts_toPrune_mem (e : String → Nat) (i : Nat) :
    ∀ (ps : List PartV) (j : Nat) (st : ScanSt),
      ∀ pos ∈ (scanParts e i j ps st).toPrune,
        pos ∈ st.toPrune ∨
        ∃ k out, pos = (i, j + k) ∧ ps.get? k = some (.toolCompleted out none) := by
  intro ps
  induction ps with
  | nil => intro j st pos hpos; exact Or.inl hpos
  | cons p rest ih =>
    intro j st pos hpos
    have hstep : scanParts e i j (p :: rest) st =
        scanPart e i j p (scanParts e i (j + 1) rest st) := rfl
    rw [hstep] at hpos
    have shift : pos ∈ (scanParts e i (j + 1) rest st).toPrune →
        pos ∈ st.toPrune ∨
        ∃ k out, pos = (i, j + k) ∧ (p :: rest).get? k = some (.toolCompleted out none) := by
      intro hmem
      rcases ih (j + 1) st pos hmem with h | ⟨k, out, heq, hk⟩
      · exact Or.inl h
      · refine Or.inr ⟨k + 1, out, ?_, ?_⟩
        · have harith : j + 1 + k = j + (k + 1) := by omega
          rw [heq, harith]
        · exact hk
    by_cases hb : (scanParts e i (j + 1) rest st).broke = true
    · rw [scanPart_broke e i j p _ hb] at hpos
      exact shift hpos
    · unfold scanPart at hpos
      rw [if_neg hb] at hpos
      cases p with
      | text c => exact shift hpos
      | file => exact shift hpos
      | toolPending inp => exact shift hpos
      | toolError inp emsg => exact shift hpos
      | toolCompleted output compacted =>
        dsimp only at hpos
        by_cases hc : compacted.isSome = true
        · rw [if_pos hc] at hpos
          exact shift hpos
        · rw [if_neg hc] at hpos
          have hcn : compacted = none := Option.not_isSome_iff_eq_none.mp hc
          by_cases hp : PRUNE_PROTECT <
              (scanParts e i (j + 1) rest st).total + e output
          · rw [if_pos hp] at hpos
            rcases List.mem_cons.mp hpos with h | h
            · refine Or.inr ⟨0, output, ?_, ?_⟩
              · rw [h]
                have harith : j + 0 = j := by omega
                rw [harith]
              · rw [hcn]
                rfl
            · exact shift h
          · rw [if_neg hp] at hpos
            exact shift hpos

theorem scanMsgs_toPrune_mem (e : String → Nat) :
    ∀ (msgs : List Msg) (i : Nat) (st : ScanSt),
      ∀ pos ∈ (scanMsgs e i msgs st).toPrune,
        pos ∈ st.toPrune ∨
        ∃ k m j out, pos = (i + k, j) ∧ msgs.get? k = some m ∧
          m.parts.get? j = some (.toolCompleted out none) ∧
          2 ≤ st.turns + countUsers (msgs.drop k) := by
  intro msgs
  induction msgs with
  | nil => intro i st pos hpos; exact Or.inl hpos
  | cons m rest ih =>
    intro i st pos hpos
    have hstep : scanMsgs e i (m :: rest) st =
        scanMsg e i m (scanMsgs e (i + 1) rest st) := rfl
    rw [hstep] at hpos
    have shift : pos ∈ (scanMsgs e (i + 1) rest st).toPrune →
        pos ∈ st.toPrune ∨
        ∃ k m' j out, pos = (i + k, j) ∧ (m :: rest).get? k = some m' ∧
          m'.parts.get? j = some (.toolCompleted out none) ∧
          2 ≤ st.turns + countUsers ((m :: rest).drop k) := by
      intro hmem
      rcases ih (i + 1) st pos hmem with h | ⟨k, m', j, out, heq, hk, hj, ht⟩
      · exact Or.inl h
      · refine Or.inr ⟨k + 1, m', j, out, ?_, hk, hj, ?_⟩
        · have harith : i + 1 + k = i + (k + 1) := by omega
          rw [heq, harith]
        · exact ht
    by_cases hb : (scanMsgs e (i + 1) rest st).broke = true
    · rw [scanMsg_broke e i m _ hb] at hpos
      exact shift hpos
    · have hb' : (scanMsgs e (i + 1) rest st).broke = false := by
        revert hb; cases (scanMsgs e (i + 1) rest st).broke <;> simp
      have hturns := scanMsgs_turns e rest (i + 1) st hb'
      unfold scanMsg scanMsgBody at hpos
      rw [if_neg (by simp [hb'])] at hpos
      by_cases h1 : (({ scanMsgs e (i + 1) rest st with
          turns := if m.role = Role.user then (scanMsgs e (i + 1) rest st).turns + 1
            else (scanMsgs e (i + 1) rest st).turns } : ScanSt)).turns < 2
      · rw [if_pos h1] at hpos
        exact shift hpos
      · rw [if_neg h1] at hpos
        by_cases h2 : m.role = Role.assistant ∧ m.summary = true
        · rw [if_pos h2] at hpos
          exact shift hpos
        · rw [if_neg h2] at hpos
          rcases scanParts_toPrune_mem e i m.parts 0 _ pos hpos with h | ⟨j, out, heq, hj⟩
          · exact shift h
          · have hz : (0 : Nat) + j = j := by omega
            rw [hz] at heq
            refine Or.inr ⟨0, m, j, out, ?_, rfl, hj, ?_⟩
            · rw [heq]
              have harith : i + 0 = i := by omega
              rw [harith]
            · have hdrop : (m :: rest).drop 0 = m :: rest := rfl
              rw [hdrop]
              have hcount : countUsers (m :: rest) =
                  countUsers rest + (if m.role = Role.user then 1 else 0) := by
                unfold countUsers
                rw [List.countP_cons]
                by_cases hu : m.role = Role.user <;> simp [hu]
              rw [hcount]
              simp only at h1
              rw [hturns] at h1
              split_ifs at h1 ⊢ with hu <;> omega

theorem scanPart_protect (e : String → Nat) (i j : Nat) (p : PartV) (st : ScanSt)
    (h : st.pruned ≠ 0 → PRUNE_PROTECT < st.total) :
    (scanPart e i j p st).pruned ≠ 0 → PRUNE_PROTECT < (scanPart e i j p st).total := by
  unfold scanPart
  by_cases hb : st.broke = true
  · rw [if_pos hb]; exact h
  · rw [if_neg hb]
    cases p with
    | text c => exact h
    | file => exact h
    | toolPending inp => exact h
    | toolError inp emsg => exact h
    | toolCompleted output compacted =>
      dsimp only
      by_cases hc : compacted.isSome = true
      · rw [if_pos hc]; exact h
      · rw [if_neg hc]
        by_cases hp : PRUNE_PROTECT < st.total + e output
        · rw [if_pos hp]
          intro _
          exact hp
        · rw [if_neg hp]
          intro hpr
          have := h hpr
          omega

theorem scanParts_protect (e : String → Nat) (i : Nat) :
    ∀ (ps : List PartV) (j : Nat) (st : ScanSt),
      (st.pruned ≠ 0 → PRUNE_PROTECT < st.total) →
      ((scanParts e i j ps st).pruned ≠ 0 → PRUNE_PROTECT < (scanParts e i j ps st).total) := by
  intro ps
  induction ps with
  | nil => intro j st h; exact h
  | cons p rest ih =>
    intro j st h
    exact scanPart_protect e i j p _ (ih (j + 1) st h)

theorem scanMsg_protect (e : String → Nat) (i : Nat) (m : Msg) (st : ScanSt)
    (h : st.pruned ≠ 0 → PRUNE_PROTECT < st.total) :
    (scanMsg e i m st).pruned ≠ 0 → PRUNE_PROTECT < (scanMsg e i m st).total := by
  unfold scanMsg scanMsgBody
  by_cases hb : st.broke = true
  · rw [if_pos hb]; exact h
  · rw [if_neg hb]
    by_cases h1 : (({ st with turns := if m.role = Role.user then st.turns + 1
        else st.turns } : ScanSt)).turns < 2
    · rw [if_pos h1]; exact h
    · rw [if_neg h1]
      by_cases h2 : m.role = Role.assistant ∧ m.summary = true
      · rw [if_pos h2]; exact h
      · rw [if_neg h2]
        exact scanParts_protect e i m.parts 0 _ h

theorem scanMsgs_protect (e : String → Nat) :
    ∀ (msgs : List Msg) (i : Nat) (st : ScanSt),
      (st.pruned ≠ 0 → PRUNE_PROTECT < st.total) →
      ((scanMsgs e i msgs st).pruned ≠ 0 → PRUNE_PROTECT < (scanMsgs e i msgs st).total) := by
  intro msgs
  induction msgs with
  | nil => intro i st h; exact h
  | cons m rest ih =>
    intro i st h
    exact scanMsg_protect e i m _ (ih (i + 1) st h)

theorem markParts_length (R : List (Nat × Nat)) (now i : Nat) :
    ∀ (ps : List PartV) (j : Nat), (markParts R now i j ps).length = ps.length := by
  intro ps
  induction ps with
  | nil => intro j; rfl
  | cons p rest ih =>
    intro j
    show (markParts R now i (j + 1) rest).length + 1 = rest.length + 1
    rw [ih (j + 1)]

theorem markParts_get (R : List (Nat × Nat)) (now i : Nat) :
    ∀ (ps : List PartV) (j k : Nat),
      (markParts R now i j ps).get? k =
        (ps.get? k).map (fun p => if (i, j + k) ∈ R then markPart now p else p) := by
  intro ps
  induction ps with
  | nil => intro j k; rfl
  | cons p rest ih =>
    intro j k
    cases k with
    | zero =>
      show some (if (i, j) ∈ R then markPart now p else p) =
        some (if (i, j + 0) ∈ R then markPart now p else p)
      rw [Nat.add_zero]
    | succ k =>
      show (markParts R now i (j + 1) rest).get? k =
        (rest.get? k).map (fun p => if (i, j + (k + 1)) ∈ R then markPart now p else p)
      rw [ih (j + 1) k]
      have harith : j + 1 + k = j + (k + 1) := by omega
      rw [harith]

theorem markMsgs_length (R : List (Nat × Nat)) (now : Nat) :
    ∀ (msgs : List Msg) (i : Nat), (markMsgs R now i msgs).length = msgs.length := by
  intro msgs
  induction msgs with
  | nil => intro i; rfl
  | cons m rest ih =>
    intro i
    show (markMsgs R now (i + 1) rest).length + 1 = rest.length + 1
    rw [ih (i + 1)]

theorem markMsgs_get (R : List (Nat × Nat)) (now : Nat) :
    ∀ (msgs : List Msg) (i k : Nat),
      (markMsgs R now i msgs).get? k = (msgs.get? k).map (markMsg R now (i + k)) := by
  intro msgs
  induction msgs with
  | nil => intro i k; rfl
  | cons m rest ih =>
    intro i k
    cases k with
    | zero =>
      show some (markMsg R now i m) = some (markMsg R now (i + 0) m)
      rw [Nat.add_zero]
    | succ k =>
      show (markMsgs R now (i + 1) rest).get? k = (rest.get? k).map (markMsg R now (i + (k + 1)))
      rw [ih (i + 1) k]
      have harith : i + 1 + k = i + (k + 1) := by omega
      rw [harith]

/-- C4: `prune` walks the parts from newest to oldest and (a) marks only
completed, not-yet-compacted tool outputs on assistant messages older than
the second-to-last user message — never a part of the last 2 user turns —
(b) marks anything only when the accumulated estimate exceeds
`PRUNE_PROTECT` and the total marked exceeds `PRUNE_MINIMUM`, and (c) the
only change it makes is setting the `compacted` timestamp: no part's text or
output is ever mutated.  The hypothesis reflects the data model: user
messages carry no tool parts. -/
theorem prune_marks_only_old_completed (e : String → Nat) (now : Nat) (msgs : List Msg)
    (huser : ∀ m ∈ msgs, m.role = Role.user → ∀ p ∈ m.parts, p.isTool = false) :
    (∀ pos ∈ (scan e msgs).toPrune, ∃ k j m out,
      pos = (k, j) ∧ msgs.get? k = some m ∧ m.role = Role.assistant ∧
      m.parts.get? j = some (PartV.toolCompleted out none) ∧
      2 ≤ countUsers (msgs.drop (k + 1))) ∧
    (prune e now msgs ≠ msgs →
      PRUNE_MINIMUM < (scan e msgs).pruned ∧ PRUNE_PROTECT < (scan e msgs).total) ∧
    (prune e now msgs).length = msgs.length ∧
    (∀ k m m', msgs.get? k = some m → (prune e now msgs).get? k = some m' →
      m'.role = m.role ∧ m'.summary = m.summary ∧ m'.parts.length = m.parts.length ∧
      ∀ j p p', m.parts.get? j = some p → m'.parts.get? j = some p' →
        (p' = p ∨ ∃ out, p = PartV.toolCompleted out none ∧
          p' = PartV.toolCompleted out (some now))) := by
  have hchar : ∀ pos ∈ (scan e msgs).toPrune, ∃ k j m out,
      pos = (k, j) ∧ msgs.get? k = some m ∧ m.role = Role.assistant ∧
      m.parts.get? j = some (PartV.toolCompleted out none) ∧
      2 ≤ countUsers (msgs.drop (k + 1)) := by
    intro pos hpos
    rcases scanMsgs_toPrune_mem e msgs 0 st0 pos hpos with habs | ⟨k, m, j, out, heq, hk, hj, ht⟩
    · exact absurd habs (by simp [st0])
    · have hz : (0 : Nat) + k = k := by omega
      rw [hz] at heq
      have hmem : m ∈ msgs := List.get?_mem hk
      have hrole : m.role = Role.assistant := by
        cases hr : m.role with
        | assistant => rfl
        | user =>
          have hp : PartV.toolCompleted out none ∈ m.parts := List.get?_mem hj
          have := huser m hmem hr (PartV.toolCompleted out none) hp
          exact absurd this (by simp [PartV.isTool])
      refine ⟨k, j, m, out, heq, hk, hrole, hj, ?_⟩
      have hklen : k < msgs.length := by
        rcases List.get?_eq_some.mp hk with ⟨hlt, _⟩
        exact hlt
      have hdrop : msgs.drop k = m :: msgs.drop (k + 1) := by
        rw [List.drop_eq_getElem_cons hklen]
        congr 1
        rcases List.get?_eq_some.mp hk with ⟨hlt, hget⟩
        exact hget
      rw [hdrop] at ht
      have hcount : countUsers (m :: msgs.drop (k + 1)) = countUsers (msgs.drop (k + 1)) := by
        unfold countUsers
        rw [List.countP_cons]
        simp [hrole]
      rw [hcount] at ht
      simpa [st0] using ht
  refine ⟨hchar, ?_, ?_, ?_⟩
  · intro hne
    by_cases hm : PRUNE_MINIMUM < (scan e msgs).pruned
    · refine ⟨hm, ?_⟩
      have hinv := scanMsgs_protect e msgs 0 st0 (by intro h0; exact absurd rfl h0)
      have hpr : (scan e msgs).pruned ≠ 0 := by
        have : PRUNE_MINIMUM = 20000 := rfl
        omega
      exact hinv hpr
    · exact absurd (by unfold prune; rw [if_neg hm]) hne
  · unfold prune
    by_cases hm : PRUNE_MINIMUM < (scan e msgs).pruned
    · rw [if_pos hm]
      exact markMsgs_length _ now msgs 0
    · rw [if_neg hm]
  · intro k m m' hget hget'
    by_cases hm : PRUNE_MINIMUM < (scan e msgs).pruned
    · rw [show prune e now msgs = markMsgs (scan e msgs).toPrune now 0 msgs by
        unfold prune; rw [if_pos hm]] at hget'
      rw [markMsgs_get, hget] at hget'
      have hz : (0 : Nat) + k = k := by omega
      rw [hz] at hget'
      have hm' : m' = markMsg (scan e msgs).toPrune now k m := by
        have := Option.some.inj hget'
        exact this.symm
      subst hm'
      refine ⟨rfl, rfl, markParts_length _ now k m.parts 0, ?_⟩
      intro j p p' hp hp'
      have hp'' : (markParts (scan e msgs).toPrune now k 0 m.parts).get? j = some p' := hp'
      rw [markParts_get, hp] at hp''
      have hzj : (0 : Nat) + j = j := by omega
      rw [hzj] at hp''
      have hp3 := Option.some.inj hp''
      simp only at hp3
      by_cases hmem : (k, j) ∈ (scan e msgs).toPrune
      · rw [if_pos hmem] at hp3
        rcases hchar (k, j) hmem with ⟨k1, j1, m1, out, heqp, hk1, _, hj1, _⟩
        have hk1e : k1 = k := by
          have := congrArg Prod.fst heqp
          simpa using this.symm
        have hj1e : j1 = j := by
          have := congrArg Prod.snd heqp
          simpa using this.symm
        subst hk1e
        subst hj1e
        rw [hget] at hk1
        have hm1 : m1 = m := (Option.some.inj hk1).symm
        subst hm1
        rw [hp] at hj1
        have hpe : p = PartV.toolCompleted out none := Option.some.inj hj1
        refine Or.inr ⟨out, hpe, ?_⟩
        rw [← hp3, hpe]
        rfl
      · rw [if_neg hmem] at hp3
        exact Or.inl hp3.symm
    · rw [show prune e now msgs = msgs by unfold prune; rw [if_neg hm]] at hget'
      rw [hget] at hget'
      have hme : m' = m := (Option.some.inj hget').symm
      subst hme
      exact ⟨rfl, rfl, rfl, fun j p p' hp hp' => by
        rw [hp] at hp'
        exact Or.inl (Option.some.inj hp').symm⟩

theorem markMsg_role (R : List (Nat × Nat)) (now i : Nat) (m : Msg) :
    (markMsg R now i m).role = m.role := rfl

theorem markMsg_summary (R : List (Nat × Nat)) (now i : Nat) (m : Msg) :
    (markMsg R now i m).summary = m.summary := rfl

theorem markMsg_parts (R : List (Nat × Nat)) (now i : Nat) (m : Msg) :
    (markMsg R now i m).parts = markParts R now i 0 m.parts := rfl

/-- Lockstep relation between a first `prune` scan and a rescan of the marked
messages: either no position has been collected yet and the two scans agree,
or the rescan has stopped at a marked part with nothing collected. -/
def Rel (st1 st2 : ScanSt) : Prop :=
  (st2 = st1 ∧ st1.toPrune = [] ∧ st1.pruned = 0 ∧ st1.total ≤ PRUNE_PROTECT) ∨
  (st2.broke = true ∧ st2.toPrune = [] ∧ st2.pruned = 0)

theorem scanPart_nontool (e : String → Nat) (i j : Nat) (p : PartV) (st : ScanSt)
    (hp : ∀ output compacted, p ≠ PartV.toolCompleted output compacted) :
    scanPart e i j p st = st := by
  unfold scanPart
  by_cases hb : st.broke = true
  · rw [if_pos hb]
  · rw [if_neg hb]
    cases p with
    | text c => rfl
    | file => rfl
    | toolPending inp => rfl
    | toolError inp emsg => rfl
    | toolCompleted output compacted => exact absurd rfl (hp output compacted)

theorem scanPart_rel (e : String → Nat) (now : Nat) (R : List (Nat × Nat)) (i j : Nat)
    (p : PartV) (st1 st2 : ScanSt)
    (hrel : Rel st1 st2)
    (hsub : (scanPart e i j p st1).toPrune ⊆ R) :
    Rel (scanPart e i j p st1)
      (scanPart e i j (if (i, j) ∈ R then markPart now p else p) st2) := by
  rcases hrel with ⟨heq, htp, hpr, hto⟩ | ⟨hb2, htp2, hpr2⟩
  · subst heq
    by_cases hb : st2.broke = true
    · rw [scanPart_broke e i j p st2 hb, scanPart_broke e i j _ st2 hb]
      exact Or.inl ⟨rfl, htp, hpr, hto⟩
    · cases p with
      | text c =>
        have h2 : (if (i, j) ∈ R then markPart now (PartV.text c) else PartV.text c) =
            PartV.text c := by split_ifs <;> rfl
        rw [h2, scanPart_nontool e i j _ st2 (by intro o c' hcon; cases hcon)]
        exact Or.inl ⟨rfl, htp, hpr, hto⟩
      | file =>
        have h2 : (if (i, j) ∈ R then markPart now PartV.file else PartV.file) =
            PartV.file := by split_ifs <;> rfl
        rw [h2, scanPart_nontool e i j _ st2 (by intro o c' hcon; cases hcon)]
        exact Or.inl ⟨rfl, htp, hpr, hto⟩
      | toolPending inp =>
        have h2 : (if (i, j) ∈ R then markPart now (PartV.toolPending inp)
            else PartV.toolPending inp) = PartV.toolPending inp := by split_ifs <;> rfl
        rw [h2, scanPart_nontool e i j _ st2 (by intro o c' hcon; cases hcon)]
        exact Or.inl ⟨rfl, htp, hpr, hto⟩
      | toolError inp emsg =>
        have h2 : (if (i, j) ∈ R then markPart now (PartV.toolError inp emsg)
            else PartV.toolError inp emsg) = PartV.toolError inp emsg := by split_ifs <;> rfl
        rw [h2, scanPart_nontool e i j _ st2 (by intro o c' hcon; cases hcon)]
        exact Or.inl ⟨rfl, htp, hpr, hto⟩
      | toolCompleted output compacted =>
        cases compacted with
        | some t =>
          have h1 : scanPart e i j (PartV.toolCompleted output (some t)) st2 =
              { st2 with broke := true } := by
            unfold scanPart
            rw [if_neg hb]
            rfl
          have h2 : (if (i, j) ∈ R then markPart now (PartV.toolCompleted output (some t))
              else PartV.toolCompleted output (some t)) =
              PartV.toolCompleted output (if (i, j) ∈ R then some now else some t) := by
            split_ifs <;> rfl
          rw [h1, h2]
          have h3 : scanPart e i j
              (PartV.toolCompleted output (if (i, j) ∈ R then some now else some t)) st2 =
              { st2 with broke := true } := by
            unfold scanPart
            rw [if_neg hb]
            dsimp only
            rw [if_pos (show (if (i, j) ∈ R then some now else some t).isSome = true by
              split_ifs <;> rfl)]
          rw [h3]
          exact Or.inl ⟨rfl, htp, hpr, hto⟩
        | none =>
          by_cases hmem : (i, j) ∈ R
          · rw [if_pos hmem]
            have h2 : scanPart e i j (markPart now (PartV.toolCompleted output none)) st2 =
                { st2 with broke := true } := by
              unfold scanPart markPart
              rw [if_neg hb]
              rfl
            rw [h2]
            exact Or.inr ⟨rfl, htp, hpr⟩
          · rw [if_neg hmem]
            by_cases hp : PRUNE_PROTECT < st2.total + e output
            · exfalso
              have hin : (i, j) ∈
                  (scanPart e i j (PartV.toolCompleted output none) st2).toPrune := by
                unfold scanPart
                rw [if_neg hb]
                dsimp only
                rw [if_neg (by simp), if_pos hp]
                exact List.mem_cons_self _ _
              exact hmem (hsub hin)
            · have h1 : scanPart e i j (PartV.toolCompleted output none) st2 =
                  { st2 with total := st2.total + e output } := by
                unfold scanPart
                rw [if_neg hb]
                dsimp only
                rw [if_neg (by simp), if_neg hp]
              rw [h1]
              refine Or.inl ⟨rfl, htp, hpr, ?_⟩
              show st2.total + e output ≤ PRUNE_PROTECT
              omega
  · rw [scanPart_broke e i j _ st2 hb2]
    exact Or.inr ⟨hb2, htp2, hpr2⟩

theorem scanParts_rel (e : String → Nat) (now : Nat) (R : List (Nat × Nat)) (i : Nat) :
    ∀ (ps : List PartV) (j : Nat) (st1 st2 : ScanSt),
      Rel st1 st2 →
      (scanParts e i j ps st1).toPrune ⊆ R →
      Rel (scanParts e i j ps st1) (scanParts e i j (markParts R now i j ps) st2) := by
  intro ps
  induction ps with
  | nil => intro j st1 st2 hrel _; exact hrel
  | cons p rest ih =>
    intro j st1 st2 hrel hsub
    have hstep1 : scanParts e i j (p :: rest) st1 =
        scanPart e i j p (scanParts e i (j + 1) rest st1) := rfl
    have hstep2 : scanParts e i j (markParts R now i j (p :: rest)) st2 =
        scanPart e i j (if (i, j) ∈ R then markPart now p else p)
          (scanParts e i (j + 1) (markParts R now i (j + 1) rest) st2) := rfl
    rw [hstep1] at hsub ⊢
    rw [hstep2]
    have hsubrest : (scanParts e i (j + 1) rest st1).toPrune ⊆ R :=
      fun a ha => hsub (scanPart_toPrune_subset e i j p _ ha)
    exact scanPart_rel e now R i j p _ _ (ih (j + 1) st1 st2 hrel hsubrest) hsub

theorem scanMsg_rel (e : String → Nat) (now : Nat) (R : List (Nat × Nat)) (i : Nat)
    (m : Msg) (st1 st2 : ScanSt)
    (hrel : Rel st1 st2)
    (hsub : (scanMsg e i m st1).toPrune ⊆ R) :
    Rel (scanMsg e i m st1) (scanMsg e i (markMsg R now i m) st2) := by
  rcases hrel with ⟨heq, htp, hpr, hto⟩ | ⟨hb2, htp2, hpr2⟩
  · subst heq
    by_cases hb : st2.broke = true
    · rw [scanMsg_broke e i m st2 hb, scanMsg_broke e i _ st2 hb]
      exact Or.inl ⟨rfl, htp, hpr, hto⟩
    · unfold scanMsg scanMsgBody
      rw [if_neg hb, if_neg hb]
      simp only [markMsg_role, markMsg_summary, markMsg_parts]
      by_cases h1 : (({ st2 with turns := if m.role = Role.user then st2.turns + 1
          else st2.turns } : ScanSt)).turns < 2
      · rw [if_pos h1, if_pos h1]
        exact Or.inl ⟨rfl, htp, hpr, hto⟩
      · rw [if_neg h1, if_neg h1]
        by_cases h2 : m.role = Role.assistant ∧ m.summary = true
        · rw [if_pos h2, if_pos h2]
          exact Or.inl ⟨rfl, htp, hpr, hto⟩
        · rw [if_neg h2, if_neg h2]
          have hsub' : (scanParts e i 0 m.parts
              { st2 with turns := if m.role = Role.user then st2.turns + 1
                else st2.turns }).toPrune ⊆ R := by
            intro a ha
            apply hsub
            unfold scanMsg scanMsgBody
            rw [if_neg hb, if_neg h1, if_neg h2]
            exact ha
          exact scanParts_rel e now R i m.parts 0 _ _
            (Or.inl ⟨rfl, htp, hpr, hto⟩) hsub'
  · rw [scanMsg_broke e i _ st2 hb2]
    exact Or.inr ⟨hb2, htp2, hpr2⟩

theorem scanMsgs_rel (e : String → Nat) (now : Nat) (R : List (Nat × Nat)) :
    ∀ (msgs : List Msg) (i : Nat) (st1 st2 : ScanSt),
      Rel st1 st2 →
      (scanMsgs e i msgs st1).toPrune ⊆ R →
      Rel (scanMsgs e i msgs st1) (scanMsgs e i (markMsgs R now i msgs) st2) := by
  intro msgs
  induction msgs with
  | nil => intro i st1 st2 hrel _; exact hrel
  | cons m rest ih =>
    intro i st1 st2 hrel hsub
    have hstep1 : scanMsgs e i (m :: rest) st1 =
        scanMsg e i m (scanMsgs e (i + 1) rest st1) := rfl
    have hstep2 : scanMsgs e i (markMsgs R now i (m :: rest)) st2 =
        scanMsg e i (markMsg R now i m)
          (scanMsgs e (i + 1) (markMsgs R now (i + 1) rest) st2) := rfl
    rw [hstep1] at hsub ⊢
    rw [hstep2]
    have hsubrest : (scanMsgs e (i + 1) rest st1).toPrune ⊆ R :=
      fun a ha => hsub (scanMsg_toPrune_subset e i m _ ha)
    exact scanMsg_rel e now R i m _ _ (ih (i + 1) st1 st2 hrel hsubrest) hsub

/-- C5: `prune` is idempotent — a second run on the output of a first run
(with no messages or parts added in between) marks nothing further and
returns its input unchanged. -/
theorem prune_idempotent (e : String → Nat) (now now2 : Nat) (msgs : List Msg) :
    prune e now2 (prune e now msgs) = prune e now msgs := by
  by_cases hm : PRUNE_MINIMUM < (scan e msgs).pruned
  · have hbase : prune e now msgs = markMsgs (scan e msgs).toPrune now 0 msgs := by
      unfold prune
      rw [if_pos hm]
    rw [hbase]
    have hrel := scanMsgs_rel e now (scan e msgs).toPrune msgs 0 st0 st0
      (Or.inl ⟨rfl, rfl, rfl, by norm_num [st0, PRUNE_PROTECT]⟩)
      (fun a ha => ha)
    have hpr2 : (scan e (markMsgs (scan e msgs).toPrune now 0 msgs)).pruned = 0 := by
      rcases hrel with ⟨heq2, _, hpr, _⟩ | ⟨_, _, hpr⟩
      · exfalso
        have hpr1 : (scan e msgs).pruned = 0 := hpr
        have h20 : PRUNE_MINIMUM = 20000 := rfl
        rw [hpr1] at hm
        omega
      · exact hpr
    unfold prune
    rw [if_neg (by rw [hpr2]; intro hcon; exact absurd hcon (by norm_num [PRUNE_MINIMUM]))]
  · have hbase : prune e now msgs = msgs := by
      unfold prune
      rw [if_neg hm]
    rw [hbase]
    unfold prune
    rw [if_neg hm]

/-- Concrete estimator for the prune witness. -/
def wE : String → Nat := fun s => s.length * 3000

/-- Concrete message history for the prune witness: an old assistant turn
with a large completed tool output, followed by two user turns. -/
def wPruneMsgs : List Msg :=
  [⟨Role.assistant, false, [PartV.toolCompleted "big old tool output" none]⟩,
   ⟨Role.user, false, [PartV.text "q1"]⟩,
   ⟨Role.assistant, false, [PartV.text "a1"]⟩,
   ⟨Role.user, false, [PartV.text "q2"]⟩]

/-- Witness for `prune_marks_only_old_completed` at a concrete history. -/
theorem prune_marks_witness :
    (∀ pos ∈ (scan wE wPruneMsgs).toPrune, ∃ k j m out,
      pos = (k, j) ∧ wPruneMsgs.get? k = some m ∧ m.role = Role.assistant ∧
      m.parts.get? j = some (PartV.toolCompleted out none) ∧
      2 ≤ countUsers (wPruneMsgs.drop (k + 1))) ∧
    (prune wE 7 wPruneMsgs ≠ wPruneMsgs →
      PRUNE_MINIMUM < (scan wE wPruneMsgs).pruned ∧
      PRUNE_PROTECT < (scan wE wPruneMsgs).total) ∧
    (prune wE 7 wPruneMsgs).length = wPruneMsgs.length ∧
    (∀ k m m', wPruneMsgs.get? k = some m → (prune wE 7 wPruneMsgs).get? k = some m' →
      m'.role = m.role ∧ m'.summary = m.summary ∧ m'.parts.length = m.parts.length ∧
      ∀ j p p', m.parts.get? j = some p → m'.parts.get? j = some p' →
        (p' = p ∨ ∃ out, p = PartV.toolCompleted out none ∧
          p' = PartV.toolCompleted out (some 7))) :=
  prune_marks_only_old_completed wE 7 wPruneMsgs (by decide)

end SessionCompaction
